import Mathlib

/-!
Verification of the dual-dialect schema-extraction engine of the
drizzle-orm-visualizer repository.

The development shallowly embeds the two parser families:
* the fluent-dialect (Drizzle) structural parser `parseDrizzleSchema`
  (AST passes from `src/lib/drizzle-parser.ts`) and its regex fallback
  `parseDrizzleSchemaFallback`;
* the block-dialect (Prisma) structural parser `parsePrismaSchema` and its
  fallback `parsePrismaSchemaFallback`;
plus the shared utilities from `drizzle-utils.ts`.

Modelling conventions:
* JavaScript strings are Lean `String`s; character-level scanning is done on
  `List Char`.
* `Math.random()` (used only for table positions) is modelled by an explicit
  jitter stream `rand : Nat → Int`, sampled once per constructed table.
  JS numbers in positions are modelled as `Int` (no claim depends on the
  fractional part of a position).
* The external `acorn-typescript` parser (an npm dependency, not repository
  code) is modelled as an abstract oracle `String → Option ESNode`; `none`
  models a parse exception.
* `try`/`catch` blocks whose bodies are total in the embedding are dead code
  and are dropped; fallible helpers keep their `Option` result type.
-/

set_option maxHeartbeats 1000000
set_option maxRecDepth 8000

namespace DrizzleViz

/-! ## Data model (src/types/drizzle.ts) -/

structure Position where
  x : Int
  y : Int
deriving Repr, DecidableEq

structure ColumnRef where
  table : String
  column : String
deriving Repr, DecidableEq

structure ParsedColumn where
  name : String
  type : String
  isPrimaryKey : Bool
  isUnique : Bool
  isNotNull : Bool
  references : Option ColumnRef := none
  defaultValue : Option String := none
deriving Repr, DecidableEq

structure ParsedIndex where
  name : String
  columns : List String
  isUnique : Bool
deriving Repr, DecidableEq

structure ParsedEnum where
  name : String
  values : List String
deriving Repr, DecidableEq

structure ParsedTable where
  id : String
  name : String
  columns : List ParsedColumn
  indexes : List ParsedIndex
  position : Position
deriving Repr, DecidableEq

structure ParsedRelationship where
  id : String
  source : String
  target : String
  sourceColumn : String
  targetColumn : String
deriving Repr, DecidableEq

structure ParsedSchema where
  tables : List ParsedTable
  relationships : List ParsedRelationship
  enums : List ParsedEnum
deriving Repr, DecidableEq

/-- The source `ParseResult` shape is `{success; data?; error?}`; successful
results always carry `data` and failures always carry `error`, so it is a sum. -/
inductive ParseResult where
  | success (data : ParsedSchema)
  | failure (error : String)
deriving Repr, DecidableEq

def ParseResult.isSuccess : ParseResult → Bool
  | .success _ => true
  | .failure _ => false

/-! ## Shared utilities (drizzle-utils.ts) -/

def DEFAULT_Y_OFFSET : Int := 50
def TABLE_SPACING_X : Int := 250
def TABLE_SPACING_Y : Int := 200

/-- Source `generateTablePosition(index)`; callers never pass `customSpacing`.
`Math.random() * 100 - 50` is modelled by the jitter stream sample
`rand index`. -/
def generateTablePosition (rand : Nat → Int) (index : Nat) : Position :=
  { x := 50 + (index : Int) * TABLE_SPACING_X + rand index
    y := DEFAULT_Y_OFFSET + (index / 3 : Nat) * TABLE_SPACING_Y }

def generateRelationshipId (sourceTable sourceColumn targetTable : String) : String :=
  "rel-" ++ sourceTable ++ "-" ++ sourceColumn ++ "-" ++ targetTable

/-! ## Character-level string machinery

JS `\w` is `[A-Za-z0-9_]`; the JS whitespace class is modelled by the common
ASCII whitespace characters (none of the parsed schema texts use exotic
Unicode spaces). -/

def isWordChar (c : Char) : Bool :=
  (c ≥ 'a' && c ≤ 'z') || (c ≥ 'A' && c ≤ 'Z') || (c ≥ '0' && c ≤ '9') || c = '_'

def isJsSpace (c : Char) : Bool :=
  c = ' ' || c = '\t' || c = '\n' || c = '\r' || c = Char.ofNat 11 || c = Char.ofNat 12

def lbrace : Char := Char.ofNat 123
def rbrace : Char := Char.ofNat 125

/-- Drop characters up to and including the first occurrence of `*/`;
`none` when the comment is unterminated. -/
def dropBlockClose : List Char → Option (List Char)
  | [] => none
  | c :: rest =>
    if c = '*' ∧ rest.head? = some '/' then some rest.tail
    else dropBlockClose rest

/-- JS `replace(/\/\*[\s\S]*?\*\//g, '')`: each `/*` opens a comment ending at
the next `*/`; an unterminated `/*` is left in place (the regex then has no
match, and no later occurrence can match either since no `*/` remains).
Written with explicit fuel (every step discards at least one character, so
`input length + 1` fuel always suffices) to keep kernel reduction available. -/
def stripBlockCommentsFuel : Nat → List Char → List Char
  | 0, l => l
  | _ + 1, [] => []
  | fuel + 1, c :: rest =>
    if c = '/' ∧ rest.head? = some '*' then
      match dropBlockClose rest.tail with
      | some rest' => stripBlockCommentsFuel fuel rest'
      | none => c :: rest
    else c :: stripBlockCommentsFuel fuel rest

def stripBlockComments (l : List Char) : List Char :=
  stripBlockCommentsFuel (l.length + 1) l

/-- JS `replace(/\/\/.*$/gm, '')`: drop from each `//` to the end of its
line (`.*` does not cross the newline, which is kept).  Fuel as above. -/
def stripLineCommentsFuel : Nat → List Char → List Char
  | 0, l => l
  | _ + 1, [] => []
  | fuel + 1, c :: rest =>
    if c = '/' ∧ rest.head? = some '/' then
      stripLineCommentsFuel fuel (rest.dropWhile (· ≠ '\n'))
    else c :: stripLineCommentsFuel fuel rest

def stripLineComments (l : List Char) : List Char :=
  stripLineCommentsFuel (l.length + 1) l

/-- JS `String.prototype.trim`. -/
def trimChars (l : List Char) : List Char :=
  (l.dropWhile isJsSpace).reverse.dropWhile isJsSpace |>.reverse

/-- JS `String.prototype.includes` as substring search. -/
def containsSub (haystack needle : List Char) : Bool :=
  match haystack with
  | [] => needle.isEmpty
  | _ :: rest => needle.isPrefixOf haystack || containsSub rest needle

/-! ## ESTree AST model

The fluent-dialect structural parser consumes the AST produced by the
external `acorn-typescript` parser.  `ESNode` covers the node shapes the
parser inspects; every other node shape is `otherNode` (the generic walker
still descends into its children). -/

inductive LitVal where
  | str (s : String)
  | num (n : Int)
  | boolean (b : Bool)
  | nullv
deriving Repr, DecidableEq

/-- JS template interpolation / `String(...)` of a literal value. -/
def LitVal.render : LitVal → String
  | .str s => s
  | .num n => toString n
  | .boolean b => if b then "true" else "false"
  | .nullv => "null"

inductive ESNode where
  | identifier (name : String)
  | literal (value : LitVal)
  | callExpression (callee : ESNode) (args : List ESNode)
  | memberExpression (object : ESNode) (property : ESNode)
  | objectExpression (properties : List ESNode)
  | arrayExpression (elements : List ESNode)
  | arrowFunctionExpression (params : List ESNode) (body : ESNode)
  | property (key : ESNode) (value : ESNode)
  | spreadElement (argument : ESNode)
  | variableDeclarator (id : ESNode) (init : Option ESNode)
  | variableDeclaration (declarations : List ESNode)
  | exportNamedDeclaration (declaration : Option ESNode)
  | program (body : List ESNode)
  | otherNode (children : List ESNode)
deriving Repr

mutual

/-- Preorder node enumeration mirroring `walkAST` (callback on the node, then
recursion into each child field in estree field order). -/
def allNodes : ESNode → List ESNode
  | .identifier n => [.identifier n]
  | .literal v => [.literal v]
  | .callExpression callee args =>
    .callExpression callee args :: (allNodes callee ++ allNodesList args)
  | .memberExpression o p => .memberExpression o p :: (allNodes o ++ allNodes p)
  | .objectExpression ps => .objectExpression ps :: allNodesList ps
  | .arrayExpression es => .arrayExpression es :: allNodesList es
  | .arrowFunctionExpression ps b =>
    .arrowFunctionExpression ps b :: (allNodesList ps ++ allNodes b)
  | .property k v => .property k v :: (allNodes k ++ allNodes v)
  | .spreadElement a => .spreadElement a :: allNodes a
  | .variableDeclarator i ini =>
    .variableDeclarator i ini :: (allNodes i ++ allNodesOpt ini)
  | .variableDeclaration ds => .variableDeclaration ds :: allNodesList ds
  | .exportNamedDeclaration d => .exportNamedDeclaration d :: allNodesOpt d
  | .program b => .program b :: allNodesList b
  | .otherNode cs => .otherNode cs :: allNodesList cs

def allNodesList : List ESNode → List ESNode
  | [] => []
  | n :: ns => allNodes n ++ allNodesList ns

def allNodesOpt : Option ESNode → List ESNode
  | none => []
  | some n => allNodes n

end

/-! ## Fluent-dialect structural parser (drizzle-parser.ts) -/

/-- Source `parseEnumFromAST` on a variable declarator. -/
def parseEnumFromAST : ESNode → Option ParsedEnum
  | .variableDeclarator (.identifier enumName) (some (.callExpression _ args)) =>
    match args with
    | enumDbName :: valuesNode :: _ =>
      match enumDbName, valuesNode with
      | .literal _, .arrayExpression elems =>
        some { name := enumName
               values := (elems.map fun el =>
                 match el with
                 | .literal (.str s) => s
                 | _ => "").filter (· ≠ "") }
      | _, _ => none
    | _ => none
  | _ => none

/-- First pass, enum half: `pgEnum` declarators inside a variable
declaration. -/
def enumsOfNode : ESNode → List ParsedEnum
  | .variableDeclaration decls =>
    decls.filterMap fun d =>
      match d with
      | .variableDeclarator _ (some (.callExpression (.identifier "pgEnum") _)) =>
        parseEnumFromAST d
      | _ => none
  | _ => []

/-- First pass, shared-schema half: identifier declarators initialized with an
object literal.  The JS object assignment `sharedSchemas[name] = init` lets
the last write win; consing newest-first makes `List.lookup` return it. -/
def collectSharedSchemas (nodes : List ESNode) : List (String × List ESNode) :=
  nodes.foldl (fun acc n =>
    match n with
    | .variableDeclaration decls =>
      decls.foldl (fun acc2 d =>
        match d with
        | .variableDeclarator (.identifier nm) (some (.objectExpression props)) =>
          (nm, props) :: acc2
        | _ => acc2) acc
    | _ => acc) []

/-- The chained-call collection `while` loop of `parseColumnFromAST`: returns
the chained method names (innermost first, as produced by `unshift`) and the
expression the loop stopped at. -/
def chainWalk : ESNode → (List String × ESNode)
  | .callExpression callee args =>
    match callee with
    | .memberExpression obj (.identifier propName) =>
      let r := chainWalk obj
      (r.1 ++ [propName], r.2)
    | _ => ([], .callExpression callee args)
  | e => ([], e)

/-- Source `parseReferencesFromAST`: walk the chain looking for a
`.references(() => table.column)` call. -/
def parseReferencesFromAST : ESNode → Option ColumnRef
  | .callExpression callee args =>
    match callee with
    | .memberExpression obj prop =>
      match prop with
      | .identifier pn =>
        if pn = "references" ∧ args.isEmpty = false then
          match args.head? with
          | some (.arrowFunctionExpression _
              (.memberExpression (.identifier t) (.identifier c))) =>
            some { table := t, column := c }
          | _ => none
        else parseReferencesFromAST obj
      | _ => parseReferencesFromAST obj
    | _ => none
  | _ => none

/-- The Drizzle column-type display dictionary of `parseColumnFromAST`. -/
def typeMapping : List (String × String) :=
  [("bigint", "bigint"), ("bigserial", "bigserial"), ("bit", "bit"),
   ("boolean", "boolean"), ("bytea", "bytea"), ("char", "char"),
   ("cidr", "cidr"), ("date", "date"), ("doublePrecision", "double precision"),
   ("inet", "inet"), ("integer", "integer"), ("interval", "interval"),
   ("json", "json"), ("jsonb", "jsonb"), ("macaddr", "macaddr"),
   ("macaddr8", "macaddr8"), ("numeric", "numeric"), ("decimal", "decimal"),
   ("pgEnum", "enum"), ("point", "point"), ("real", "real"), ("blob", "blob"),
   ("serial", "serial"), ("smallint", "smallint"),
   ("smallserial", "smallserial"), ("text", "text"), ("time", "time"),
   ("timestamp", "timestamp"), ("timestamptz", "timestamptz"),
   ("uuid", "uuid"), ("varchar", "varchar"), ("vector", "vector"),
   ("xml", "xml")]

/-- Rendering of one argument of the base type call (the `forEach` over
`currentExpr.arguments`): an object literal renders its literal-valued
properties, a string/number literal passes through, anything else is
skipped. -/
def columnArgString : ESNode → Option String
  | .objectExpression props =>
    let inner := (props.map fun p =>
      match p with
      | .property (.identifier k) (.literal v) => k ++ ": " ++ v.render
      | _ => "").filter (· ≠ "")
    some ("\x7b " ++ String.intercalate ", " inner ++ " \x7d")
  | .literal (.str s) => some s
  | .literal (.num n) => some (toString n)
  | _ => none

/-- Source `parseColumnFromAST` on an object-literal property. -/
def parseColumnFromAST : ESNode → Option ParsedColumn
  | .property (.identifier columnName) columnExpression =>
    let cw := chainWalk columnExpression
    let chainedCalls := cw.1
    let bt : String × List String :=
      match cw.2 with
      | .callExpression (.identifier nm) args => (nm, args.filterMap columnArgString)
      | _ => ("", [])
    let columnType := bt.1
    let columnArgs := bt.2
    let displayType := (typeMapping.lookup columnType).getD columnType
    let isPrimaryKey := chainedCalls.contains "primaryKey"
    let isUnique := chainedCalls.contains "unique"
    let isNotNull := chainedCalls.contains "notNull"
    let references :=
      if chainedCalls.contains "references" then parseReferencesFromAST columnExpression
      else none
    let defaultValue :=
      match chainedCalls.find? (fun c =>
        c == "default" || c == "defaultNow" || c == "defaultRandom") with
      | some "defaultNow" => some "now()"
      | some "defaultRandom" => some "gen_random_uuid()"
      | some _ => some "default"
      | none => none
    some { name := columnName
           type := displayType ++
             (if columnArgs ≠ [] then "(" ++ String.intercalate ", " columnArgs ++ ")" else "")
           isPrimaryKey, isUnique, isNotNull, references, defaultValue }
  | _ => none

/-- The table-name/columns extraction of `parseTableFromAST`; the
position-carrying record is attached in `parseTableFromAST` (split so the
independence from the position jitter stays visible). -/
def parseTableCore (sharedSchemas : List (String × List ESNode)) :
    ESNode → Option (String × String × List ParsedColumn)
  | .variableDeclarator (.identifier tableName) (some (.callExpression callee args)) =>
    let tc : Option (ESNode × ESNode) :=
      match args with
      | a :: b :: _ => some (a, b)
      | [_] =>
        match callee with
        | .callExpression _ innerArgs =>
          match innerArgs with
          | x :: y :: _ => some (x, y)
          | _ => none
        | _ => none
      | _ => none
    match tc with
    | some (.literal v, .objectExpression props) =>
      let columns := props.flatMap fun p =>
        match p with
        | .property _ _ => (parseColumnFromAST p).toList
        | .spreadElement (.identifier schemaName) =>
          match sharedSchemas.lookup schemaName with
          | some sprops => sprops.flatMap fun sp =>
            match sp with
            | .property _ _ => (parseColumnFromAST sp).toList
            | _ => []
          | none => []
        | _ => []
      some (tableName, v.render, columns)
    | _ => none
  | _ => none

def parseTableFromAST (rand : Nat → Int) (tableIndex : Nat)
    (sharedSchemas : List (String × List ESNode)) (declaration : ESNode) :
    Option ParsedTable :=
  (parseTableCore sharedSchemas declaration).map fun tc =>
    { id := tc.1, name := tc.2.1, columns := tc.2.2, indexes := []
      position := generateTablePosition rand tableIndex }

/-- The `find?` predicate for a property of the relation config object with a
given identifier key (the source checks `isProperty`, identifier key, and the
key name). -/
def isKeyProp (key : String) : ESNode → Bool
  | .property (.identifier k) _ => k == key
  | _ => false

/-- The body of the `forEach` over the relations object literal in
`parseRelationsFromAST`: one property yields zero or one relationships
(only the first elements of `fields`/`references` are consulted). -/
def relsForProperty (sourceTableName : String) : ESNode → List ParsedRelationship
  | .property _ (.callExpression (.identifier relType) relArgs) =>
    if relType = "one" ∧ relArgs.length > 1 then
      match relArgs with
      | targetTableNode :: config :: _ =>
        match targetTableNode with
        | .identifier targetTableName =>
          match config with
          | .objectExpression cprops =>
            let fieldsProp := cprops.find? (isKeyProp "fields")
            let referencesProp := cprops.find? (isKeyProp "references")
            match fieldsProp, referencesProp with
            | some (.property _ (.arrayExpression fieldsElements)),
              some (.property _ (.arrayExpression refsElements)) =>
              if fieldsElements.length > 0 ∧ refsElements.length > 0 then
                match fieldsElements.head?, refsElements.head? with
                | some (.memberExpression _ (.identifier sourceColumn)),
                  some (.memberExpression _ (.identifier targetColumn)) =>
                  [ { id := generateRelationshipId sourceTableName sourceColumn targetTableName
                      source := sourceTableName, target := targetTableName
                      sourceColumn, targetColumn } ]
                | _, _ => []
              else []
            | _, _ => []
          | _ => []
        | _ => []
      | _ => []
    else []
  | _ => []

/-- Source `parseRelationsFromAST` on a variable declarator initialized with a
`relations(sourceTable, arrow)` call. -/
def parseRelationsFromAST : ESNode → List ParsedRelationship
  | .variableDeclarator _ (some (.callExpression _ cargs)) =>
    match cargs with
    | sourceTableNode :: arrowFunc :: _ =>
      match sourceTableNode, arrowFunc with
      | .identifier sourceTableName, .arrowFunctionExpression _ (.objectExpression props) =>
        props.flatMap (relsForProperty sourceTableName)
      | _, _ => []
    | _ => []
  | _ => []

/-- Source `parseIndexFromAST` reformulated to return the `(table id, index)` update
it applies to the table map (the source mutates the aliased table object). -/
def parseIndexFromAST : ESNode → Option (String × ParsedIndex)
  | .variableDeclarator (.identifier indexName)
      (some (.callExpression (.identifier calleeName) cargs)) =>
    let isUnique := calleeName == "uniqueIndex"
    match cargs.head? with
    | some (.callExpression (.memberExpression onObj (.identifier "on")) onArgs) =>
      let columns := (onArgs.map fun col =>
        match col with
        | .memberExpression _ (.identifier cn) => cn
        | _ => "").filter (· ≠ "")
      match onObj with
      | .memberExpression (.identifier onTable) _ =>
        some (onTable, { name := indexName, columns, isUnique })
      | _ => none
    | _ => none
  | _ => none

/-- The update `tableMap[onTable].indexes.push(ix)`: the reduce-built map keeps the last
table with a given id, so the update lands on the last matching table. -/
def updateTableLast (tid : String) (ix : ParsedIndex) : List ParsedTable → List ParsedTable
  | [] => []
  | t :: ts =>
    if t.id = tid ∧ ¬ ts.any (fun u => u.id == tid) then
      { t with indexes := t.indexes ++ [ix] } :: ts
    else t :: updateTableLast tid ix ts

/-- Second-pass node filter: `export const` whose first declarator is
initialized by a table-builder call (direct builders) or a
`schema.table(...)` member call. -/
def tableDeclOfNode : ESNode → Option ESNode
  | .exportNamedDeclaration (some (.variableDeclaration decls)) =>
    match decls.head? with
    | some (.variableDeclarator i (some (.callExpression callee cargs))) =>
      match callee with
      | .identifier nm =>
        if nm ∈ ["pgTable", "pgTableCreator", "sqliteTable", "sqliteTableCreator",
                 "mysqlTable", "mysqlTableCreator"] then
          some (.variableDeclarator i (some (.callExpression callee cargs)))
        else none
      | .memberExpression o (.identifier pn) =>
        if pn = "table" then
          some (.variableDeclarator i (some (.callExpression (.memberExpression o (.identifier pn)) cargs)))
        else none
      | _ => none
    | _ => none
  | _ => none

/-- Second pass: `tables.push` uses `tables.length` as the position index,
modelled by the running counter `k`. -/
def tablesAux (rand : Nat → Int) (ss : List (String × List ESNode)) :
    List ESNode → Nat → List ParsedTable
  | [], _ => []
  | n :: ns, k =>
    match tableDeclOfNode n with
    | some d =>
      match parseTableFromAST rand k ss d with
      | some t => t :: tablesAux rand ss ns (k + 1)
      | none => tablesAux rand ss ns k
    | none => tablesAux rand ss ns k

/-- Inline-reference relationship synthesis for a single table (the body of
the final `tables.forEach`). -/
def inlineRelsTable (t : ParsedTable) : List ParsedRelationship :=
  t.columns.filterMap fun c =>
    c.references.map fun ref =>
      { id := generateRelationshipId t.id c.name ref.table
        source := t.id, target := ref.table
        sourceColumn := c.name, targetColumn := ref.column }

def inlineRels (tables : List ParsedTable) : List ParsedRelationship :=
  tables.flatMap inlineRelsTable

/-- Third-pass extraction for one walked node: `relations(...)`
declarations. -/
def relationsOfNode : ESNode → List ParsedRelationship
  | .variableDeclaration decls =>
    match decls.head? with
    | some (.variableDeclarator i (some (.callExpression (.identifier "relations") cargs))) =>
      parseRelationsFromAST (.variableDeclarator i (some (.callExpression (.identifier "relations") cargs)))
    | _ => []
  | _ => []

/-- Fourth-pass extraction for one walked node: `index`/`uniqueIndex`
declarations. -/
def indexUpdateOfNode : ESNode → Option (String × ParsedIndex)
  | .variableDeclaration decls =>
    match decls.head? with
    | some (.variableDeclarator i (some (.callExpression (.identifier cn) cargs))) =>
      if cn = "index" ∨ cn = "uniqueIndex" then
        parseIndexFromAST (.variableDeclarator i (some (.callExpression (.identifier cn) cargs)))
      else none
    | _ => none
  | _ => none

/-- The structural passes of `parseDrizzleSchema`, run on the successfully
acorn-parsed AST. -/
def parseDrizzleAST (rand : Nat → Int) (ast : ESNode) : ParseResult :=
  let nodes := allNodes ast
  let enums := nodes.flatMap enumsOfNode
  let sharedSchemas := collectSharedSchemas nodes
  let tables0 := tablesAux rand sharedSchemas nodes 0
  let relationRels := nodes.flatMap relationsOfNode
  let indexUpdates := nodes.filterMap indexUpdateOfNode
  let tables := indexUpdates.foldl (fun ts u => updateTableLast u.1 u.2 ts) tables0
  let relationships := relationRels ++ inlineRels tables
  if tables.length = 0 ∧ enums.length = 0 then
    .failure "No valid Drizzle tables or enums found in the schema"
  else
    .success { tables, relationships, enums }

/-! ## Regex scanning primitives

Each source regex is hand-compiled to an anchored matcher over `List Char`;
the `g`-flag `exec` loop is `scanAll`, which tries the anchored matcher at
every position from left to right (exactly the leftmost-match semantics of
`RegExp.exec`), resuming after the end of each match. -/

/-- Anchored literal: consume `pat` when it is a prefix. -/
def expectStr (pat l : List Char) : Option (List Char) :=
  if pat.isPrefixOf l then some (l.drop pat.length) else none

def expectChar (c : Char) : List Char → Option (List Char)
  | x :: rest => if x = c then some rest else none
  | [] => none

/-- A maximal nonempty run of characters satisfying `p` (a greedy `X+` whose
class is disjoint from what follows, so no backtracking arises). -/
def take1While (p : Char → Bool) (l : List Char) : Option (List Char × List Char) :=
  let run := l.takeWhile p
  if run.isEmpty then none else some (run, l.drop run.length)

/-- A maximal possibly-empty run (greedy `X*`). -/
def take0While (p : Char → Bool) (l : List Char) : List Char × List Char :=
  (l.takeWhile p, l.drop (l.takeWhile p).length)

/-- Global regex scan: anchored matcher tried at each position left to right;
a match resumes scanning after its end.  All matchers below consume at least
one character on success, so `fuel := input length` exhausts the input. -/
def scanAll {α : Type} (step : List Char → Option (α × List Char)) :
    Nat → List Char → List α
  | 0, _ => []
  | fuel + 1, l =>
    match l with
    | [] => []
    | _ :: rest =>
      match step l with
      | some (a, l') => a :: scanAll step fuel l'
      | none => scanAll step fuel rest

/-- First match of an anchored matcher anywhere in the input
(non-global `String.match` semantics). -/
def searchFirst {α : Type} (step : List Char → Option (α × List Char)) :
    Nat → List Char → Option α
  | 0, _ => none
  | fuel + 1, l =>
    match step l with
    | some (a, _) => some a
    | none =>
      match l with
      | [] => none
      | _ :: rest => searchFirst step fuel rest

/-- JS `split(sep)` for a single-character separator. -/
def splitOnChar (sep : Char) : List Char → List (List Char)
  | [] => [[]]
  | c :: rest =>
    let r := splitOnChar sep rest
    if c = sep then [] :: r
    else (c :: r.headD []) :: r.tail

/-! ## Shared modifier utilities (drizzle-utils.ts) -/

structure ColumnModifiers where
  isPrimaryKey : Bool
  isUnique : Bool
  isNotNull : Bool
  hasDefault : Bool
deriving Repr, DecidableEq

def parseColumnModifiers (modifiers : String) : ColumnModifiers :=
  { isPrimaryKey := containsSub modifiers.data "primaryKey()".data
    isUnique := containsSub modifiers.data "unique()".data
    isNotNull := containsSub modifiers.data "notNull()".data
    hasDefault := containsSub modifiers.data "default(".data ||
      containsSub modifiers.data "defaultNow(".data }

/-- Anchored matcher for `/\.references\(\(\)\s*=>\s*(\w+)\.(\w+)\)/`. -/
def extractReferencesStep (l : List Char) : Option (ColumnRef × List Char) := do
  let l ← expectStr ".references(()".data l
  let l := l.dropWhile isJsSpace
  let l ← expectStr "=>".data l
  let l := l.dropWhile isJsSpace
  let (t, l) ← take1While isWordChar l
  let l ← expectChar '.' l
  let (c, l) ← take1While isWordChar l
  let l ← expectChar ')' l
  return ({ table := String.mk t, column := String.mk c }, l)

def extractReferences (modifiers : String) : Option ColumnRef :=
  searchFirst extractReferencesStep (modifiers.data.length + 1) modifiers.data

/-! ## Fluent-dialect fallback parser (`parseDrizzleSchemaFallback`) -/

/-- Anchored matcher for the fallback enum regex
`/export const (\w+) = pgEnum\('[^']+',\s*\[([^\]]+)\]/`. -/
def drizzleEnumStep (l : List Char) : Option ((String × String) × List Char) := do
  let l ← expectStr "export const ".data l
  let (nm, l) ← take1While isWordChar l
  let l ← expectStr " = pgEnum('".data l
  let (_, l) ← take1While (· ≠ '\'') l
  let l ← expectStr "',".data l
  let l := l.dropWhile isJsSpace
  let l ← expectChar '[' l
  let (vals, l) ← take1While (· ≠ ']') l
  let l ← expectChar ']' l
  return ((String.mk nm, String.mk vals), l)

/-- The common tail `\('(\w+)',\s*\x7b([^\x7d]+)\x7d` of the fallback table
regex, capturing the table name and the columns text. -/
def drizzleTableTailStep (l : List Char) : Option ((String × String) × List Char) := do
  let l ← expectStr "('".data l
  let (tn, l) ← take1While isWordChar l
  let l ← expectStr "',".data l
  let l := l.dropWhile isJsSpace
  let l ← expectChar lbrace l
  let (cols, l) ← take1While (· ≠ rbrace) l
  let l ← expectChar rbrace l
  return ((String.mk tn, String.mk cols), l)

/-- The optional creator argument group `(?:\([^)]+\))?` with the group
present. -/
def creatorParens (l : List Char) : Option (List Char) := do
  let l ← expectChar '(' l
  let (_, l) ← take1While (· ≠ ')') l
  expectChar ')' l

/-- Remainders after the builder-name alternation
`(?:(?:pg|sqlite|mysql)Table|(?:pg|sqlite|mysql)TableCreator(?:\([^)]+\))?)`,
listed in JS backtracking order (first alternative first; the greedy optional
group tried present-first). -/
def headAlternatives (l : List Char) : List (List Char) :=
  (["pgTable".data, "sqliteTable".data, "mysqlTable".data].filterMap
    fun p => expectStr p l) ++
  (["pgTableCreator".data, "sqliteTableCreator".data, "mysqlTableCreator".data].flatMap
    fun p =>
      match expectStr p l with
      | some l' =>
        match creatorParens l' with
        | some l'' => [l'', l']
        | none => [l']
      | none => [])

def firstTableTail : List (List Char) → Option ((String × String) × List Char)
  | [] => none
  | c :: cs =>
    match drizzleTableTailStep c with
    | some r => some r
    | none => firstTableTail cs

/-- Anchored matcher for the fallback table regex, capturing
(constName, tableName, columnsStr). -/
def drizzleTableStep (l : List Char) :
    Option ((String × String × String) × List Char) := do
  let l ← expectStr "export const ".data l
  let (constName, l) ← take1While isWordChar l
  let l ← expectStr " = ".data l
  let (r, rest) ← firstTableTail (headAlternatives l)
  return ((String.mk constName, r.1, r.2), rest)

/-- Anchored matcher for the fallback column regex
`/(\w+):\s*(\w+)\([^)]*\)([^,\n]*)/`, capturing (name, type, modifiers). -/
def drizzleColumnStep (l : List Char) :
    Option ((String × String × String) × List Char) := do
  let (nm, l) ← take1While isWordChar l
  let l ← expectChar ':' l
  let l := l.dropWhile isJsSpace
  let (ty, l) ← take1While isWordChar l
  let l ← expectChar '(' l
  let (_, l) := take0While (· ≠ ')') l
  let l ← expectChar ')' l
  let (mods, l) := take0While (fun c => ¬ (c = ',' ∨ c = '\n')) l
  return ((String.mk nm, String.mk ty, String.mk mods), l)

/-- Column list of one fallback table match. -/
def fallbackColumns (columnsStr : String) : List ParsedColumn :=
  (scanAll drizzleColumnStep columnsStr.data.length columnsStr.data).map
    fun m =>
      let pm := parseColumnModifiers m.2.2
      { name := m.1, type := m.2.1
        isPrimaryKey := pm.isPrimaryKey, isUnique := pm.isUnique
        isNotNull := pm.isNotNull
        references := extractReferences m.2.2, defaultValue := none }

/-- Fallback `tables.push` loop (`tables.length` is the running counter). -/
def fallbackTablesAux (rand : Nat → Int) :
    List (String × String × String) → Nat → List ParsedTable
  | [], _ => []
  | m :: rest, k =>
    { id := m.1, name := m.2.1, columns := fallbackColumns m.2.2, indexes := []
      position := generateTablePosition rand k } :: fallbackTablesAux rand rest (k + 1)

/-- Source `parseDrizzleSchemaFallback`: regex scanning over the raw schema text; the
scan itself is total, so the `catch` branch of the source is unreachable and
the result is always the success variant. -/
def parseDrizzleSchemaFallback (rand : Nat → Int) (schemaCode : String) : ParseResult :=
  let chars := schemaCode.data
  let enums := (scanAll drizzleEnumStep chars.length chars).map fun m =>
    { name := m.1
      values := (splitOnChar ',' m.2.data).map fun v =>
        String.mk ((trimChars v).filter fun c => ¬ (c = '\'' ∨ c = '"')) : ParsedEnum }
  let tables := fallbackTablesAux rand (scanAll drizzleTableStep chars.length chars) 0
  let relationships := inlineRels tables
  .success { tables, relationships, enums }

/-! ## Fluent-dialect entry point (`parseDrizzleSchema`) -/

def cleanCode (s : String) : String :=
  String.mk (trimChars (stripLineComments (stripBlockComments s.data)))

def errInvalid : String := "Invalid schema code provided"
def errEmptyClean : String := "Schema code is empty after cleaning"
def errNoTables : String :=
  "No Drizzle table definitions found. Make sure you have pgTable(), mysqlTable(), or sqliteTable() calls."

/-- Source `parseDrizzleSchema`.  `acornParse` is the external `acorn-typescript`
parser (npm dependency, abstract here); `none` models a parse exception,
which triggers the fallback parser on the *raw* schema text.  The outer
`catch` is unreachable: every embedded pass is total. -/
def parseDrizzleSchema (acornParse : String → Option ESNode) (rand : Nat → Int)
    (schemaCode : String) : ParseResult :=
  if schemaCode = "" then .failure errInvalid
  else
    let cleanedCode := cleanCode schemaCode
    if cleanedCode = "" then .failure errEmptyClean
    else if ¬ (containsSub cleanedCode.data "pgTable".data ∨
               containsSub cleanedCode.data "mysqlTable".data ∨
               containsSub cleanedCode.data "sqliteTable".data) then
      .failure errNoTables
    else
      match acornParse cleanedCode with
      | some ast => parseDrizzleAST rand ast
      | none => parseDrizzleSchemaFallback rand schemaCode

/-! ## Block-dialect parser (prisma parser source file) -/

def PRISMA_TYPE_MAPPING : List (String × String) :=
  [("String", "text"), ("Int", "integer"), ("BigInt", "bigint"),
   ("Float", "double precision"), ("Decimal", "numeric"),
   ("Boolean", "boolean"), ("DateTime", "timestamp"), ("Json", "jsonb"),
   ("Bytes", "bytea")]

structure PrismaFieldAttribute where
  name : String
  args : List String
deriving Repr, DecidableEq

structure PrismaField where
  name : String
  type : String
  isArray : Bool
  isOptional : Bool
  attributes : List PrismaFieldAttribute
deriving Repr, DecidableEq

structure PrismaModelAttribute where
  name : String
  args : List String
deriving Repr, DecidableEq

structure PrismaModel where
  name : String
  fields : List PrismaField
  indexes : List ParsedIndex
  attributes : List PrismaModelAttribute
deriving Repr, DecidableEq

/-- JS `toLowerCase()` on identifier text (ASCII model — schema identifiers are
ASCII; `String.toLower` itself is compiled by well-founded recursion and does
not reduce in the kernel). -/
def jsToLower (s : String) : String := String.mk (s.data.map Char.toLower)

/-- Anchored matcher for `/KEYWORD\s+(\w+)\s*\x7b([^\x7d]+)\x7d/` — the shared
shape of the `enum` and `model` block regexes, capturing (name, body). -/
def prismaBlockStep (keyword : List Char) (l : List Char) :
    Option ((String × String) × List Char) := do
  let l ← expectStr keyword l
  let (_, l) ← take1While isJsSpace l
  let (nm, l) ← take1While isWordChar l
  let l := l.dropWhile isJsSpace
  let l ← expectChar lbrace l
  let (body, l) ← take1While (· ≠ rbrace) l
  let l ← expectChar rbrace l
  return ((String.mk nm, String.mk body), l)

/-- Nonempty whitespace-separated tokens (`split(/\s+/)` produces at most one
empty leading piece, which the callers' own `filter` drops, so only the
nonempty tokens are modelled). -/
def wsTokens : Nat → List Char → List (List Char)
  | 0, _ => []
  | fuel + 1, l =>
    let l' := l.dropWhile isJsSpace
    match take1While (fun c => ¬ isJsSpace c) l' with
    | some (tok, rest) => tok :: wsTokens fuel rest
    | none => []

/-- Source `parseEnums` (block dialect). -/
def parseEnums (schemaCode : String) : List ParsedEnum :=
  (scanAll (prismaBlockStep "enum".data) schemaCode.data.length schemaCode.data).map
    fun m =>
      { name := m.1
        values := ((wsTokens (m.2.data.length + 1) m.2.data).filter
          fun v => ¬ ("//".data.isPrefixOf v)).map String.mk }

/-- The character loop of `parseAttributeArgs`, tracking the previous
character (for the escape test), the current piece, nesting depth and string
state. -/
def parseAttributeArgsLoop :
    List Char → Option Char → List Char → Int → Bool → Char → List String → List String
  | [], _, current, _, _, _, acc =>
    let t := trimChars current
    if t.isEmpty then acc else acc ++ [String.mk t]
  | ch :: rest, prev, current, depth, inString, stringChar, acc =>
    if (ch = '"' ∨ ch = '\'') ∧ prev ≠ some '\\' then
      if ¬ inString then
        parseAttributeArgsLoop rest (some ch) (current ++ [ch]) depth true ch acc
      else if ch = stringChar then
        parseAttributeArgsLoop rest (some ch) (current ++ [ch]) depth false stringChar acc
      else
        parseAttributeArgsLoop rest (some ch) (current ++ [ch]) depth true stringChar acc
    else if inString then
      parseAttributeArgsLoop rest (some ch) (current ++ [ch]) depth inString stringChar acc
    else if ch = '(' ∨ ch = '[' then
      parseAttributeArgsLoop rest (some ch) (current ++ [ch]) (depth + 1) inString stringChar acc
    else if ch = ')' ∨ ch = ']' then
      parseAttributeArgsLoop rest (some ch) (current ++ [ch]) (depth - 1) inString stringChar acc
    else if ch = ',' ∧ depth = 0 then
      let t := trimChars current
      parseAttributeArgsLoop rest (some ch) [] depth inString stringChar
        (if t.isEmpty then acc else acc ++ [String.mk t])
    else
      parseAttributeArgsLoop rest (some ch) (current ++ [ch]) depth inString stringChar acc

def parseAttributeArgs (argsStr : String) : List String :=
  parseAttributeArgsLoop argsStr.data none [] 0 false ' ' []

/-- Anchored matcher for the field-attribute regex `/@(\w+)(?:\(([^)]*)\))?/`:
the optional argument group backtracks to absent when no `)` closes it. -/
def attrStep (l : List Char) : Option ((String × Option String) × List Char) := do
  let l ← expectChar '@' l
  let (nm, l) ← take1While isWordChar l
  match l with
  | '(' :: rest =>
    let (inner, rest') := take0While (· ≠ ')') rest
    match rest' with
    | ')' :: rest'' => return ((String.mk nm, some (String.mk inner)), rest'')
    | _ => return ((String.mk nm, none), l)
  | _ => return ((String.mk nm, none), l)

/-- List version of `endsWith` on character lists (`String.endsWith` itself does not reduce
in the kernel). -/
def listEndsWith (l suffix : List Char) : Bool :=
  suffix.reverse.isPrefixOf l.reverse

/-- Source `parseField`: `/^(\w+)\s+([\w\[\]?]+)(.*)$/` followed by the attribute
scan.  Both the array and the optional flag are read off the *original* type
text; the suffixes are then stripped in sequence. -/
def parseField (line : String) : Option PrismaField := do
  let l := line.data
  let (nm, l) ← take1While isWordChar l
  let (_, l) ← take1While isJsSpace l
  let (tyRun, l) ← take1While (fun c => isWordChar c ∨ c = '[' ∨ c = ']' ∨ c = '?') l
  let attributesStr := l
  let isArray := listEndsWith tyRun ['[', ']']
  let isOptional := listEndsWith tyRun ['?']
  let type1 := if isArray then tyRun.take (tyRun.length - 2) else tyRun
  let type2 := String.mk (if isOptional then type1.take (type1.length - 1) else type1)
  let attributes := (scanAll attrStep attributesStr.length attributesStr).map
    fun m =>
      { name := m.1
        args := match m.2 with
          | some a => if a ≠ "" then parseAttributeArgs a else []
          | none => [] : PrismaFieldAttribute }
  return { name := String.mk nm, type := type2, isArray, isOptional, attributes }

/-- Anchored matcher for `/\[([^\]]+)\]/`. -/
def bracketContentsStep (l : List Char) : Option (String × List Char) := do
  let l ← expectChar '[' l
  let (inner, l) ← take1While (· ≠ ']') l
  let l ← expectChar ']' l
  return (String.mk inner, l)

/-- Anchored matcher for `/name:\s*["']([^"']+)["']/`. -/
def indexNameStep (l : List Char) : Option (String × List Char) := do
  let l ← expectStr "name:".data l
  let l := l.dropWhile isJsSpace
  let l ← (match l with
    | c :: rest => if c = '"' ∨ c = '\'' then some rest else none
    | [] => none)
  let (nm, l) ← take1While (fun c => ¬ (c = '"' ∨ c = '\'')) l
  let l ← (match l with
    | c :: rest => if c = '"' ∨ c = '\'' then some rest else none
    | [] => none)
  return (String.mk nm, l)

/-- Source `parseIndexAttribute`: columns from the first bracketed group, the
optional explicit name; `null` when no columns are found. -/
def parseIndexAttribute (argsStr : String) : Option (List String × Option String) :=
  let columns :=
    match searchFirst bracketContentsStep (argsStr.data.length + 1) argsStr.data with
    | some inner => (splitOnChar ',' inner.data).map fun c => String.mk (trimChars c)
    | none => []
  let name := searchFirst indexNameStep (argsStr.data.length + 1) argsStr.data
  if columns.length > 0 then some (columns, name) else none

/-- Anchored matcher for the model-attribute regex `/@@(\w+)\(([^)]*)\)/`. -/
def modelAttrStep (l : List Char) : Option ((String × String) × List Char) := do
  let l ← expectStr "@@".data l
  let (nm, l) ← take1While isWordChar l
  let l ← expectChar '(' l
  let (inner, l) := take0While (· ≠ ')') l
  let l ← expectChar ')' l
  return ((String.mk nm, String.mk inner), l)

/-- The per-line loop over a model body in `parseModels`, accumulating
fields, indexes and model attributes in order. -/
def modelLinesLoop (modelName : String) :
    List (List Char) → List PrismaField → List ParsedIndex →
    List PrismaModelAttribute →
    List PrismaField × List ParsedIndex × List PrismaModelAttribute
  | [], fs, ixs, ats => (fs, ixs, ats)
  | line :: rest, fs, ixs, ats =>
    if "//".data.isPrefixOf line then modelLinesLoop modelName rest fs ixs ats
    else if "@@".data.isPrefixOf line then
      match searchFirst modelAttrStep (line.length + 1) line with
      | some m =>
        let ats' := ats ++ [{ name := m.1, args := [m.2] }]
        if m.1 = "index" ∨ m.1 = "unique" then
          match parseIndexAttribute m.2 with
          | some ix =>
            modelLinesLoop modelName rest fs
              (ixs ++ [{ name := ix.2.getD (modelName ++ "_" ++ m.1 ++ "_" ++ toString ixs.length)
                         columns := ix.1, isUnique := m.1 == "unique" }]) ats'
          | none => modelLinesLoop modelName rest fs ixs ats'
        else modelLinesLoop modelName rest fs ixs ats'
      | none => modelLinesLoop modelName rest fs ixs ats
    else
      match parseField (String.mk line) with
      | some f => modelLinesLoop modelName rest (fs ++ [f]) ixs ats
      | none => modelLinesLoop modelName rest fs ixs ats

/-- Source `parseModels`. -/
def parseModels (schemaCode : String) : List PrismaModel :=
  (scanAll (prismaBlockStep "model".data) schemaCode.data.length schemaCode.data).map
    fun m =>
      let lines := ((splitOnChar '\n' m.2.data).map trimChars).filter fun l => ¬ l.isEmpty
      let r := modelLinesLoop m.1 lines [] [] []
      { name := m.1, fields := r.1, indexes := r.2.1, attributes := r.2.2 }

/-- Anchored matcher for the native-type regex `/(\w+)(?:\(([^)]+)\))?/`
(argument group nonempty, backtracking to absent otherwise). -/
def nativeTypeStep (l : List Char) :
    Option ((String × Option String) × List Char) := do
  let (nm, l) ← take1While isWordChar l
  match l with
  | '(' :: rest =>
    match take1While (· ≠ ')') rest with
    | some (inner, rest') =>
      match rest' with
      | ')' :: rest'' => return ((String.mk nm, some (String.mk inner)), rest'')
      | _ => return ((String.mk nm, none), l)
    | none => return ((String.mk nm, none), l)
  | _ => return ((String.mk nm, none), l)

def matchNativeType (s : String) : Option (String × Option String) :=
  searchFirst nativeTypeStep (s.data.length + 1) s.data

/-- Source `convertFieldToColumn`: type resolution (dictionary / enum / array suffix,
then the `@db` native-type override, then the serial rule, which runs last
and therefore wins), attribute flags and default normalization. -/
def convertFieldToColumn (field : PrismaField) (enums : List ParsedEnum) :
    Option ParsedColumn :=
  let dbType0 := (PRISMA_TYPE_MAPPING.lookup field.type).getD (jsToLower field.type)
  let isEnum := enums.any fun e => e.name == field.type
  let dbType1 := if isEnum then "enum(" ++ field.type ++ ")" else dbType0
  let dbType2 := if field.isArray then dbType1 ++ "[]" else dbType1
  let idAttr := field.attributes.find? fun a => a.name == "id"
  let uniqueAttr := field.attributes.find? fun a => a.name == "unique"
  let defaultAttr := field.attributes.find? fun a => a.name == "default"
  let dbAttr := field.attributes.find? fun a => a.name == "db"
  let dbType3 :=
    match dbAttr with
    | some a =>
      match a.args.head? with
      | some nativeType =>
        match matchNativeType nativeType with
        | some tm =>
          jsToLower tm.1 ++ (match tm.2 with | some ta => "(" ++ ta ++ ")" | none => "")
        | none => dbType2
      | none => dbType2
    | none => dbType2
  let autoInc := defaultAttr.elim false fun d =>
    d.args.any fun arg => containsSub arg.data "autoincrement".data
  let dbType4 :=
    if idAttr.isSome ∧ field.type = "Int" ∧ autoInc = true then "serial" else dbType3
  let defaultValue :=
    match defaultAttr with
    | some d =>
      let defaultArg := d.args.headD ""
      some (if containsSub defaultArg.data "uuid()".data ∨
               containsSub defaultArg.data "cuid()".data then "gen_random_uuid()"
            else if containsSub defaultArg.data "now()".data then "now()"
            else if containsSub defaultArg.data "autoincrement()".data then "autoincrement"
            else defaultArg)
    | none => none
  some { name := field.name, type := dbType4, isPrimaryKey := idAttr.isSome
         isUnique := uniqueAttr.isSome, isNotNull := ¬ field.isOptional
         references := none, defaultValue }

/-- The `columns` loop of `convertModelToTable`: relation fields (type
neither mapped, an enum name, nor `Unsupported`) without an explicit
`@relation` attribute are skipped. -/
def convertModelColumns (model : PrismaModel) (enums : List ParsedEnum) :
    List ParsedColumn :=
  model.fields.flatMap fun field =>
    let isRelation := (PRISMA_TYPE_MAPPING.lookup field.type).isNone &&
      !(enums.any fun e => e.name == field.type) && field.type != "Unsupported"
    if isRelation && !(field.attributes.any fun a => a.name == "relation") then []
    else (convertFieldToColumn field enums).toList

/-- Source `convertModelToTable`. -/
def convertModelToTable (rand : Nat → Int) (model : PrismaModel) (index : Nat)
    (enums : List ParsedEnum) : Option ParsedTable :=
  some { id := model.name, name := model.name
         columns := convertModelColumns model enums
         indexes := model.indexes, position := generateTablePosition rand index }

structure RelationData where
  name : Option String := none
  fields : Option (List String) := none
  references : Option (List String) := none
deriving Repr, DecidableEq

/-- Anchored matcher for the named-argument regex `/(\w+):\s*(.+)/`. -/
def relationNamedStep (l : List Char) : Option ((String × String) × List Char) := do
  let (k, l) ← take1While isWordChar l
  let l ← expectChar ':' l
  let l := l.dropWhile isJsSpace
  let (v, rest) ← take1While (· ≠ '\n') l
  return ((String.mk k, String.mk v), rest)

/-- Source `parseRelationAttribute`. -/
def parseRelationAttribute (args : List String) : RelationData :=
  args.foldl (fun result arg =>
    match searchFirst relationNamedStep (arg.data.length + 1) arg.data with
    | some kv =>
      if kv.1 = "fields" ∨ kv.1 = "references" then
        match searchFirst bracketContentsStep (kv.2.data.length + 1) kv.2.data with
        | some inner =>
          let items := (splitOnChar ',' inner.data).map fun v => String.mk (trimChars v)
          if kv.1 = "fields" then { result with fields := some items }
          else { result with references := some items }
        | none => result
      else if kv.1 = "name" then
        { result with
          name := some (String.mk (kv.2.data.filter fun c => ¬ (c = '\'' ∨ c = '"'))) }
      else result
    | none =>
      if result.name.isNone then
        { result with
          name := some (String.mk (arg.data.filter fun c => ¬ (c = '\'' ∨ c = '"'))) }
      else result) {}

/-- The inferred foreign-key name test of the implicit-relation branch:
`<fieldName>Id`, `<fieldName>_id`, or case-insensitive `<fieldName>id`. -/
def fkNameMatch (field : PrismaField) (f : PrismaField) : Bool :=
  f.name == field.name ++ "Id" || f.name == field.name ++ "_id" ||
  jsToLower f.name == jsToLower field.name ++ "id"

/-- The primary-key test: the field carries the `@id` attribute. -/
def hasIdAttribute (f : PrismaField) : Bool :=
  f.attributes.any fun a => a.name == "id"

/-- The per-field body of the relationship-extraction loop in
`extractRelationships`: an explicit `@relation(fields: …, references: …)`
yields one relationship per `fields` entry (reusing the first reference when
the arrays are length-mismatched); otherwise a non-array field with a model
type triggers foreign-key inference by name. -/
def relsForFieldPrisma (model : PrismaModel) (allModels : List PrismaModel)
    (field : PrismaField) : List ParsedRelationship :=
  let relationAttr := field.attributes.find? fun a => a.name == "relation"
  match allModels.find? (fun m => m.name == field.type) with
  | none => []
  | some targetModel =>
    let implicitRels : List ParsedRelationship :=
      if field.isArray then []
      else
        match model.fields.find? (fkNameMatch field) with
        | some fkField =>
          match targetModel.fields.find? hasIdAttribute with
          | some targetPk =>
            [ { id := generateRelationshipId model.name fkField.name field.type
                source := model.name, target := field.type
                sourceColumn := fkField.name, targetColumn := targetPk.name } ]
          | none => []
        | none => []
    match relationAttr with
    | some ra =>
      if ra.args.length > 0 then
        let relationData := parseRelationAttribute ra.args
        match relationData.fields, relationData.references with
        | some flds, some refs =>
          (List.range flds.length).map fun i =>
            let sourceColumn := flds.getD i ""
            let targetColumn :=
              match refs.get? i with
              | some v => if v = "" then refs.headD "" else v
              | none => refs.headD ""
            { id := generateRelationshipId model.name sourceColumn field.type
              source := model.name, target := field.type
              sourceColumn, targetColumn }
        | _, _ => []
      else implicitRels
    | none => implicitRels

/-- Source `extractRelationships`. -/
def extractRelationships (model : PrismaModel) (allModels : List PrismaModel) :
    List ParsedRelationship :=
  model.fields.flatMap (relsForFieldPrisma model allModels)

/-- The loop `models.forEach((model, index) => …)`: the position index is the forEach
index, advancing for every model. -/
def prismaTablesAux (rand : Nat → Int) (enums : List ParsedEnum) :
    List PrismaModel → Nat → List ParsedTable
  | [], _ => []
  | m :: ms, idx =>
    match convertModelToTable rand m idx enums with
    | some t => t :: prismaTablesAux rand enums ms (idx + 1)
    | none => prismaTablesAux rand enums ms (idx + 1)

def errPrismaNone : String :=
  "No Prisma models or enums found. Make sure you have model definitions."
def errPrismaEmpty : String := "No valid Prisma models or enums found in the schema"

/-- Source `parsePrismaSchema`.  Every embedded helper is total, so the
`catch`-to-fallback branch of the source is unreachable. -/
def parsePrismaSchema (rand : Nat → Int) (schemaCode : String) : ParseResult :=
  if schemaCode = "" then .failure errInvalid
  else
    let cleanedCode := cleanCode schemaCode
    if cleanedCode = "" then .failure errEmptyClean
    else if ¬ (containsSub cleanedCode.data "model ".data ∨
               containsSub cleanedCode.data "enum ".data) then
      .failure errPrismaNone
    else
      let parsedEnums := parseEnums cleanedCode
      let models := parseModels cleanedCode
      let tables := prismaTablesAux rand parsedEnums models 0
      let relationships := models.flatMap fun m => extractRelationships m models
      if tables.length = 0 ∧ parsedEnums.length = 0 then
        .failure errPrismaEmpty
      else
        .success { tables, relationships, enums := parsedEnums }

/-! ## Block-dialect fallback parser (`parsePrismaSchemaFallback`) -/

/-- The fallback field-line regex `/^(\w+)\s+([\w\[\]?]+)/`. -/
def prismaFallbackFieldMatch (l : List Char) : Option (String × String) := do
  let (nm, l) ← take1While isWordChar l
  let (_, l) ← take1While isJsSpace l
  let (ty, _) ← take1While (fun c => isWordChar c ∨ c = '[' ∨ c = ']' ∨ c = '?') l
  return (String.mk nm, String.mk ty)

/-- Fallback column extraction for one model body: coarse line scan keeping
only fields whose bracket-stripped type is in the type dictionary. -/
def prismaFallbackColumns (modelBody : String) : List ParsedColumn :=
  (splitOnChar '\n' modelBody.data).filterMap fun line =>
    let trimmed := trimChars line
    if trimmed.isEmpty then none
    else if "//".data.isPrefixOf trimmed then none
    else if "@@".data.isPrefixOf trimmed then none
    else
      match prismaFallbackFieldMatch trimmed with
      | some ft =>
        let cleanType := String.mk (ft.2.data.filter fun c => ¬ (c = '[' ∨ c = ']' ∨ c = '?'))
        match PRISMA_TYPE_MAPPING.lookup cleanType with
        | none => none
        | some mapped =>
          some { name := ft.1, type := mapped
                 isPrimaryKey := containsSub trimmed "@id".data
                 isUnique := containsSub trimmed "@unique".data
                 isNotNull := ¬ containsSub ft.2.data "?".data
                 references := none, defaultValue := none }
      | none => none

/-- Fallback model loop: `tableIndex` advances only when a model with at
least one column is pushed (`tableIndex++` sits inside the push). -/
def prismaFallbackTablesAux (rand : Nat → Int) :
    List (String × String) → Nat → List ParsedTable
  | [], _ => []
  | m :: ms, k =>
    let columns := prismaFallbackColumns m.2
    if columns.length > 0 then
      { id := m.1, name := m.1, columns, indexes := []
        position := generateTablePosition rand k } :: prismaFallbackTablesAux rand ms (k + 1)
    else prismaFallbackTablesAux rand ms k

/-- Source `parsePrismaSchemaFallback`: always the success variant (the body is
total, so the `catch` branch is unreachable); it fills no relationships. -/
def parsePrismaSchemaFallback (rand : Nat → Int) (schemaCode : String) : ParseResult :=
  let chars := schemaCode.data
  let enums : List ParsedEnum :=
    (scanAll (prismaBlockStep "enum".data) chars.length chars).map fun m =>
      { name := m.1, values := (wsTokens (m.2.data.length + 1) m.2.data).map String.mk }
  let tables := prismaFallbackTablesAux rand
    (scanAll (prismaBlockStep "model".data) chars.length chars) 0
  .success { tables, relationships := [], enums }

/-! ## Position erasure

The only places the position jitter (and the table index) flow into a parse
result are the `position` fields of tables; erasing positions makes the
results of two runs comparable. -/

def eraseTable (t : ParsedTable) : ParsedTable := { t with position := ⟨0, 0⟩ }

def eraseResult : ParseResult → ParseResult
  | .success d => .success { d with tables := d.tables.map eraseTable }
  | .failure e => .failure e

theorem eraseTable_id (t : ParsedTable) : (eraseTable t).id = t.id := rfl

theorem eraseTable_name (t : ParsedTable) : (eraseTable t).name = t.name := rfl

theorem eraseTable_columns (t : ParsedTable) : (eraseTable t).columns = t.columns := rfl

theorem eraseTable_indexes (t : ParsedTable) : (eraseTable t).indexes = t.indexes := rfl

/-- Congruence: `any` respects a function the predicate factors through. -/
theorem any_of_map_eq {α β : Type} (f : α → β) (p : α → Bool) (q : β → Bool)
    (hpq : ∀ a, p a = q (f a)) :
    ∀ l l' : List α, l.map f = l'.map f → l.any p = l'.any p := by
  intro l
  induction l with
  | nil =>
    intro l' h
    cases l' with
    | nil => rfl
    | cons => simp at h
  | cons a as ih =>
    intro l' h
    cases l' with
    | nil => simp at h
    | cons b bs =>
      simp only [List.map_cons, List.cons.injEq] at h
      have hab : q (f a) = q (f b) := by rw [h.1]
      simp only [List.any_cons, hpq a, hpq b, hab, ih bs h.2]

/-- Congruence: `flatMap` respects a function the body factors through. -/
theorem flatMap_of_map_eq {α β γ : Type} (f : α → β) (g : α → List γ) (q : β → List γ)
    (hgq : ∀ a, g a = q (f a)) :
    ∀ l l' : List α, l.map f = l'.map f → l.flatMap g = l'.flatMap g := by
  intro l
  induction l with
  | nil =>
    intro l' h
    cases l' with
    | nil => rfl
    | cons => simp at h
  | cons a as ih =>
    intro l' h
    cases l' with
    | nil => simp at h
    | cons b bs =>
      simp only [List.map_cons, List.cons.injEq] at h
      simp only [List.flatMap_cons, hgq a, hgq b, h.1, ih bs h.2]

theorem eraseTable_parseTableFromAST (r r' : Nat → Int) (i i' : Nat)
    (ss : List (String × List ESNode)) (d : ESNode) :
    (parseTableFromAST r i ss d).map eraseTable =
    (parseTableFromAST r' i' ss d).map eraseTable := by
  unfold parseTableFromAST
  cases parseTableCore ss d <;> simp [eraseTable]

theorem tablesAux_cons_none (r : Nat → Int) (ss : List (String × List ESNode))
    (n : ESNode) (ns : List ESNode) (k : Nat)
    (hd : tableDeclOfNode n = none) :
    tablesAux r ss (n :: ns) k = tablesAux r ss ns k := by
  simp only [tablesAux, hd]

theorem tablesAux_cons_skip (r : Nat → Int) (ss : List (String × List ESNode))
    (n d : ESNode) (ns : List ESNode) (k : Nat)
    (hd : tableDeclOfNode n = some d)
    (hc : parseTableFromAST r k ss d = none) :
    tablesAux r ss (n :: ns) k = tablesAux r ss ns k := by
  simp only [tablesAux, hd, hc]

theorem tablesAux_cons_push (r : Nat → Int) (ss : List (String × List ESNode))
    (n d : ESNode) (ns : List ESNode) (k : Nat) (t : ParsedTable)
    (hd : tableDeclOfNode n = some d)
    (hc : parseTableFromAST r k ss d = some t) :
    tablesAux r ss (n :: ns) k = t :: tablesAux r ss ns (k + 1) := by
  simp only [tablesAux, hd, hc]

theorem parseTableFromAST_eq_none (r : Nat → Int) (k : Nat)
    (ss : List (String × List ESNode)) (d : ESNode)
    (hc : parseTableCore ss d = none) : parseTableFromAST r k ss d = none := by
  simp only [parseTableFromAST, hc]
  rfl

theorem parseTableFromAST_eq_some (r : Nat → Int) (k : Nat)
    (ss : List (String × List ESNode)) (d : ESNode)
    (tc : String × String × List ParsedColumn)
    (hc : parseTableCore ss d = some tc) :
    parseTableFromAST r k ss d =
      some { id := tc.1, name := tc.2.1, columns := tc.2.2, indexes := []
             position := generateTablePosition r k } := by
  simp only [parseTableFromAST, hc]
  rfl

theorem tablesAux_erase (r r' : Nat → Int) (ss : List (String × List ESNode)) :
    ∀ (ns : List ESNode) (k k' : Nat),
    (tablesAux r ss ns k).map eraseTable = (tablesAux r' ss ns k').map eraseTable := by
  intro ns
  induction ns with
  | nil => intro k k'; simp [tablesAux]
  | cons n ns ih =>
    intro k k'
    cases hd : tableDeclOfNode n with
    | none =>
      rw [tablesAux_cons_none r ss n ns k hd, tablesAux_cons_none r' ss n ns k' hd]
      exact ih k k'
    | some d =>
      cases hc : parseTableCore ss d with
      | none =>
        rw [tablesAux_cons_skip r ss n d ns k hd (parseTableFromAST_eq_none r k ss d hc),
            tablesAux_cons_skip r' ss n d ns k' hd (parseTableFromAST_eq_none r' k' ss d hc)]
        exact ih k k'
      | some tc =>
        rw [tablesAux_cons_push r ss n d ns k _ hd (parseTableFromAST_eq_some r k ss d tc hc),
            tablesAux_cons_push r' ss n d ns k' _ hd (parseTableFromAST_eq_some r' k' ss d tc hc)]
        simp only [List.map_cons]
        have hh : eraseTable
            { id := tc.1, name := tc.2.1, columns := tc.2.2, indexes := []
              position := generateTablePosition r k } =
          eraseTable
            { id := tc.1, name := tc.2.1, columns := tc.2.2, indexes := []
              position := generateTablePosition r' k' } := rfl
        rw [hh, ih (k + 1) (k' + 1)]

theorem updateTableLast_erase (tid : String) (ix : ParsedIndex) :
    ∀ ts ts' : List ParsedTable, ts.map eraseTable = ts'.map eraseTable →
    (updateTableLast tid ix ts).map eraseTable =
    (updateTableLast tid ix ts').map eraseTable := by
  intro ts
  induction ts with
  | nil =>
    intro ts' h
    cases ts' with
    | nil => rfl
    | cons => simp at h
  | cons t ts ih =>
    intro ts' h
    cases ts' with
    | nil => simp at h
    | cons t' ts2 =>
      simp only [List.map_cons, List.cons.injEq] at h
      obtain ⟨h1, h2⟩ := h
      have hid : t.id = t'.id := by
        rw [← eraseTable_id t, ← eraseTable_id t', h1]
      have hidx : t.indexes = t'.indexes := by
        rw [← eraseTable_indexes t, ← eraseTable_indexes t', h1]
      have hany : ts.any (fun u => u.id == tid) = ts2.any (fun u => u.id == tid) :=
        any_of_map_eq eraseTable (fun u => u.id == tid) (fun u => u.id == tid)
          (fun _ => rfl) ts ts2 h2
      simp only [updateTableLast]
      by_cases hc : t.id = tid ∧ ¬ ts.any (fun u => u.id == tid) = true
      · rw [if_pos hc, if_pos (by rw [← hid, ← hany]; exact hc)]
        simp only [List.map_cons, List.cons.injEq]
        constructor
        · have hname : t.name = t'.name := by
            rw [← eraseTable_name t, ← eraseTable_name t', h1]
          have hcols : t.columns = t'.columns := by
            rw [← eraseTable_columns t, ← eraseTable_columns t', h1]
          simp [eraseTable, hid, hname, hcols, hidx]
        · exact h2
      · rw [if_neg hc, if_neg (by rw [← hid, ← hany]; exact hc)]
        simp only [List.map_cons, List.cons.injEq]
        exact ⟨h1, ih ts2 h2⟩

theorem inlineRelsTable_erase (t : ParsedTable) :
    inlineRelsTable (eraseTable t) = inlineRelsTable t := rfl

theorem inlineRels_of_erase_eq (ts ts' : List ParsedTable)
    (h : ts.map eraseTable = ts'.map eraseTable) : inlineRels ts = inlineRels ts' :=
  flatMap_of_map_eq eraseTable inlineRelsTable inlineRelsTable
    (fun t => (inlineRelsTable_erase t).symm) ts ts' h

theorem foldlUpdate_erase (updates : List (String × ParsedIndex)) :
    ∀ ts ts' : List ParsedTable, ts.map eraseTable = ts'.map eraseTable →
    (updates.foldl (fun a u => updateTableLast u.1 u.2 a) ts).map eraseTable =
    (updates.foldl (fun a u => updateTableLast u.1 u.2 a) ts').map eraseTable := by
  induction updates with
  | nil => intro ts ts' h; simpa using h
  | cons u us ih =>
    intro ts ts' h
    simp only [List.foldl_cons]
    exact ih _ _ (updateTableLast_erase u.1 u.2 ts ts' h)

theorem parseDrizzleAST_erase (r r' : Nat → Int) (ast : ESNode) :
    eraseResult (parseDrizzleAST r ast) = eraseResult (parseDrizzleAST r' ast) := by
  simp only [parseDrizzleAST]
  have hupd : (((allNodes ast).filterMap indexUpdateOfNode).foldl
        (fun a u => updateTableLast u.1 u.2 a)
        (tablesAux r (collectSharedSchemas (allNodes ast)) (allNodes ast) 0)).map eraseTable =
      (((allNodes ast).filterMap indexUpdateOfNode).foldl
        (fun a u => updateTableLast u.1 u.2 a)
        (tablesAux r' (collectSharedSchemas (allNodes ast)) (allNodes ast) 0)).map eraseTable :=
    foldlUpdate_erase _ _ _
      (tablesAux_erase r r' (collectSharedSchemas (allNodes ast)) (allNodes ast) 0 0)
  have hlen : (((allNodes ast).filterMap indexUpdateOfNode).foldl
        (fun a u => updateTableLast u.1 u.2 a)
        (tablesAux r (collectSharedSchemas (allNodes ast)) (allNodes ast) 0)).length =
      (((allNodes ast).filterMap indexUpdateOfNode).foldl
        (fun a u => updateTableLast u.1 u.2 a)
        (tablesAux r' (collectSharedSchemas (allNodes ast)) (allNodes ast) 0)).length := by
    have h := congrArg List.length hupd
    simpa using h
  have hinl := inlineRels_of_erase_eq _ _ hupd
  by_cases hcond : (((allNodes ast).filterMap indexUpdateOfNode).foldl
        (fun a u => updateTableLast u.1 u.2 a)
        (tablesAux r (collectSharedSchemas (allNodes ast)) (allNodes ast) 0)).length = 0 ∧
      ((allNodes ast).flatMap enumsOfNode).length = 0
  · rw [if_pos hcond, if_pos (by rw [← hlen]; exact hcond)]
  · rw [if_neg hcond, if_neg (by rw [← hlen]; exact hcond)]
    simp only [eraseResult]
    rw [hinl, hupd]

theorem fallbackTablesAux_erase (r r' : Nat → Int) :
    ∀ (ms : List (String × String × String)) (k k' : Nat),
    (fallbackTablesAux r ms k).map eraseTable =
    (fallbackTablesAux r' ms k').map eraseTable := by
  intro ms
  induction ms with
  | nil => intro k k'; rfl
  | cons m ms ih =>
    intro k k'
    simp only [fallbackTablesAux, List.map_cons]
    have hh : eraseTable
        { id := m.1, name := m.2.1, columns := fallbackColumns m.2.2, indexes := []
          position := generateTablePosition r k } =
      eraseTable
        { id := m.1, name := m.2.1, columns := fallbackColumns m.2.2, indexes := []
          position := generateTablePosition r' k' } := rfl
    rw [hh, ih (k + 1) (k' + 1)]

theorem parseDrizzleSchemaFallback_erase (r r' : Nat → Int) (s : String) :
    eraseResult (parseDrizzleSchemaFallback r s) =
    eraseResult (parseDrizzleSchemaFallback r' s) := by
  simp only [parseDrizzleSchemaFallback]
  have htab := fallbackTablesAux_erase r r' (scanAll drizzleTableStep s.data.length s.data) 0 0
  have hinl := inlineRels_of_erase_eq _ _ htab
  simp only [eraseResult]
  rw [hinl, htab]

theorem parseDrizzleSchema_erase (oracle : String → Option ESNode)
    (r r' : Nat → Int) (s : String) :
    eraseResult (parseDrizzleSchema oracle r s) =
    eraseResult (parseDrizzleSchema oracle r' s) := by
  simp only [parseDrizzleSchema]
  by_cases h0 : s = ""
  · rw [if_pos h0, if_pos h0]
  · rw [if_neg h0, if_neg h0]
    by_cases h1 : cleanCode s = ""
    · rw [if_pos h1, if_pos h1]
    · rw [if_neg h1, if_neg h1]
      by_cases h2 : ¬ (containsSub (cleanCode s).data "pgTable".data ∨
          containsSub (cleanCode s).data "mysqlTable".data ∨
          containsSub (cleanCode s).data "sqliteTable".data)
      · rw [if_pos h2, if_pos h2]
      · rw [if_neg h2, if_neg h2]
        cases acornParse : oracle (cleanCode s) with
        | some ast => exact parseDrizzleAST_erase r r' ast
        | none => exact parseDrizzleSchemaFallback_erase r r' s

theorem prismaTablesAux_cons (r : Nat → Int) (e : List ParsedEnum)
    (m : PrismaModel) (ms : List PrismaModel) (idx : Nat) :
    prismaTablesAux r e (m :: ms) idx =
      { id := m.name, name := m.name, columns := convertModelColumns m e
        indexes := m.indexes, position := generateTablePosition r idx } ::
      prismaTablesAux r e ms (idx + 1) := rfl

theorem prismaTablesAux_erase (r r' : Nat → Int) (e : List ParsedEnum) :
    ∀ (ms : List PrismaModel) (k k' : Nat),
    (prismaTablesAux r e ms k).map eraseTable =
    (prismaTablesAux r' e ms k').map eraseTable := by
  intro ms
  induction ms with
  | nil => intro k k'; rfl
  | cons m ms ih =>
    intro k k'
    rw [prismaTablesAux_cons, prismaTablesAux_cons]
    simp only [List.map_cons]
    have hh : eraseTable
        { id := m.name, name := m.name, columns := convertModelColumns m e
          indexes := m.indexes, position := generateTablePosition r k } =
      eraseTable
        { id := m.name, name := m.name, columns := convertModelColumns m e
          indexes := m.indexes, position := generateTablePosition r' k' } := rfl
    rw [hh, ih (k + 1) (k' + 1)]

theorem prismaTablesAux_length (r : Nat → Int) (e : List ParsedEnum) :
    ∀ (ms : List PrismaModel) (k : Nat), (prismaTablesAux r e ms k).length = ms.length := by
  intro ms
  induction ms with
  | nil => intro k; rfl
  | cons m ms ih =>
    intro k
    rw [prismaTablesAux_cons]
    simp [ih (k + 1)]

theorem parsePrismaSchema_erase (r r' : Nat → Int) (s : String) :
    eraseResult (parsePrismaSchema r s) = eraseResult (parsePrismaSchema r' s) := by
  simp only [parsePrismaSchema]
  by_cases h0 : s = ""
  · rw [if_pos h0, if_pos h0]
  · rw [if_neg h0, if_neg h0]
    by_cases h1 : cleanCode s = ""
    · rw [if_pos h1, if_pos h1]
    · rw [if_neg h1, if_neg h1]
      by_cases h2 : ¬ (containsSub (cleanCode s).data "model ".data ∨
          containsSub (cleanCode s).data "enum ".data)
      · rw [if_pos h2, if_pos h2]
      · rw [if_neg h2, if_neg h2]
        have hlen : (prismaTablesAux r (parseEnums (cleanCode s)) (parseModels (cleanCode s)) 0).length =
            (prismaTablesAux r' (parseEnums (cleanCode s)) (parseModels (cleanCode s)) 0).length := by
          rw [prismaTablesAux_length, prismaTablesAux_length]
        by_cases hcond : (prismaTablesAux r (parseEnums (cleanCode s)) (parseModels (cleanCode s)) 0).length = 0 ∧
            (parseEnums (cleanCode s)).length = 0
        · rw [if_pos hcond, if_pos (by rw [← hlen]; exact hcond)]
        · rw [if_neg hcond, if_neg (by rw [← hlen]; exact hcond)]
          simp only [eraseResult]
          rw [prismaTablesAux_erase r r' (parseEnums (cleanCode s)) (parseModels (cleanCode s)) 0 0]

theorem prismaFallbackTablesAux_erase (r r' : Nat → Int) :
    ∀ (ms : List (String × String)) (k k' : Nat),
    (prismaFallbackTablesAux r ms k).map eraseTable =
    (prismaFallbackTablesAux r' ms k').map eraseTable := by
  intro ms
  induction ms with
  | nil => intro k k'; rfl
  | cons m ms ih =>
    intro k k'
    simp only [prismaFallbackTablesAux]
    by_cases hc : (prismaFallbackColumns m.2).length > 0
    · rw [if_pos hc, if_pos hc]
      simp only [List.map_cons]
      have hh : eraseTable
          { id := m.1, name := m.1, columns := prismaFallbackColumns m.2, indexes := []
            position := generateTablePosition r k } =
        eraseTable
          { id := m.1, name := m.1, columns := prismaFallbackColumns m.2, indexes := []
            position := generateTablePosition r' k' } := rfl
      rw [hh, ih (k + 1) (k' + 1)]
    · rw [if_neg hc, if_neg hc]
      exact ih k k'

theorem parsePrismaSchemaFallback_erase (r r' : Nat → Int) (s : String) :
    eraseResult (parsePrismaSchemaFallback r s) =
    eraseResult (parsePrismaSchemaFallback r' s) := by
  simp only [parsePrismaSchemaFallback, eraseResult]
  rw [prismaFallbackTablesAux_erase r r'
    (scanAll (prismaBlockStep "model".data) s.data.length s.data) 0 0]

/-! ## Structural inversion lemmas -/

theorem parseDrizzleAST_success (r : Nat → Int) (ast : ESNode) (data : ParsedSchema)
    (h : parseDrizzleAST r ast = .success data) :
    data.relationships =
      (allNodes ast).flatMap relationsOfNode ++ inlineRels data.tables := by
  simp only [parseDrizzleAST] at h
  by_cases hcond : (((allNodes ast).filterMap indexUpdateOfNode).foldl
        (fun a u => updateTableLast u.1 u.2 a)
        (tablesAux r (collectSharedSchemas (allNodes ast)) (allNodes ast) 0)).length = 0 ∧
      ((allNodes ast).flatMap enumsOfNode).length = 0
  · rw [if_pos hcond] at h
    exact ParseResult.noConfusion h
  · rw [if_neg hcond] at h
    injection h with h'
    rw [← h']

/-! ## Concrete example inputs for the claim theorems -/

def zeroJitter : Nat → Int := fun _ => 0

/-- AST of
`export const posts = pgTable('posts', { userId: integer('user_id').references(() => users.id) });`. -/
def postsTableDecl : ESNode :=
  .exportNamedDeclaration (some (.variableDeclaration
    [.variableDeclarator (.identifier "posts")
      (some (.callExpression (.identifier "pgTable")
        [.literal (.str "posts"),
         .objectExpression
          [.property (.identifier "userId")
            (.callExpression
              (.memberExpression
                (.callExpression (.identifier "integer") [.literal (.str "user_id")])
                (.identifier "references"))
              [.arrowFunctionExpression []
                (.memberExpression (.identifier "users") (.identifier "id"))])]]))]))

/-- AST of
`const postsRelations = relations(posts, ({one}) => ({ user: one(users, { fields: [posts.userId], references: [users.id] }) }));`. -/
def postsRelationsDecl : ESNode :=
  .variableDeclaration
    [.variableDeclarator (.identifier "postsRelations")
      (some (.callExpression (.identifier "relations")
        [.identifier "posts",
         .arrowFunctionExpression [.otherNode []]
           (.objectExpression
             [.property (.identifier "user")
               (.callExpression (.identifier "one")
                 [.identifier "users",
                  .objectExpression
                    [.property (.identifier "fields")
                      (.arrayExpression
                        [.memberExpression (.identifier "posts") (.identifier "userId")]),
                     .property (.identifier "references")
                      (.arrayExpression
                        [.memberExpression (.identifier "users") (.identifier "id")])]])])]))]

/-- A schema declaring the same reference both inline and through a
`relations()` helper. -/
def astInlinePlusRelations : ESNode := .program [postsTableDecl, postsRelationsDecl]

/-- The same table declaration alone: its reference target `users` is not
declared anywhere. -/
def astDanglingReference : ESNode := .program [postsTableDecl]

def colUserId : ParsedColumn :=
  { name := "userId", type := "integer(user_id)", isPrimaryKey := false
    isUnique := false, isNotNull := false
    references := some { table := "users", column := "id" }, defaultValue := none }

def tablePosts : ParsedTable :=
  { id := "posts", name := "posts", columns := [colUserId], indexes := []
    position := { x := 50, y := 50 } }

def relPostsUsers : ParsedRelationship :=
  { id := "rel-posts-userId-users", source := "posts", target := "users"
    sourceColumn := "userId", targetColumn := "id" }

def dataInlinePlusRelations : ParsedSchema :=
  { tables := [tablePosts]
    relationships := [relPostsUsers, relPostsUsers]
    enums := [] }

/-- AST of a one-helper whose `fields`/`references` arrays have two entries
each:
`const r = relations(a, () => ({ b: one(b, { fields: [a.x, a.y], references: [b.u, b.v] }) }));`. -/
def relDeclTwoFields : ESNode :=
  .variableDeclarator (.identifier "r")
    (some (.callExpression (.identifier "relations")
      [.identifier "a",
       .arrowFunctionExpression []
         (.objectExpression
           [.property (.identifier "b")
             (.callExpression (.identifier "one")
               [.identifier "b",
                .objectExpression
                  [.property (.identifier "fields")
                    (.arrayExpression
                      [.memberExpression (.identifier "a") (.identifier "x"),
                       .memberExpression (.identifier "a") (.identifier "y")]),
                   .property (.identifier "references")
                    (.arrayExpression
                      [.memberExpression (.identifier "b") (.identifier "u"),
                       .memberExpression (.identifier "b") (.identifier "v")])]])])]))

/-- AST of `export const t = pgTable('t', { a: b });`: the column value is a
bare identifier, so no base type resolves. -/
def astBareColumn : ESNode :=
  .program [.exportNamedDeclaration (some (.variableDeclaration
    [.variableDeclarator (.identifier "t")
      (some (.callExpression (.identifier "pgTable")
        [.literal (.str "t"),
         .objectExpression [.property (.identifier "a") (.identifier "b")]]))]))]

/-- A schema text with only an enum-constructor declaration: no table builder
keyword occurs in it. -/
def enumOnlySchema : String :=
  "export const statusEnum = pgEnum('status', ['active', 'inactive']);"

/-! ## Claim theorems -/

/-- C1 (corrected), counterexample: on a schema declaring the same reference
both inline and through a `relations()` helper, the output contains two
Relationships with id `rel-posts-userId-users`, refuting "exactly one
Relationship in the output with that id". -/
theorem relationshipId_not_unique_in_output :
    (match parseDrizzleAST zeroJitter astInlinePlusRelations with
     | .success d => d.relationships.countP fun rel => rel.id == "rel-posts-userId-users"
     | .failure _ => 0) = 2 := by decide

/-- C1 (amended): for every AST handled by the structural passes, a parsed
table `t` with a column `c` carrying a parsed reference `other.col` yields at
least one Relationship in the output with id `rel-t-c-other`,
`source = t.id`, `target = other`, `sourceColumn = c.name`,
`targetColumn = col` (the inline-reference pass contributes exactly one per
such column occurrence; a matching relations() declaration can add another
with the same id). -/
theorem inline_reference_yields_relationship (r : Nat → Int) (ast : ESNode)
    (data : ParsedSchema) (t : ParsedTable) (c : ParsedColumn) (ref : ColumnRef)
    (hres : parseDrizzleAST r ast = .success data)
    (ht : t ∈ data.tables) (hc : c ∈ t.columns) (href : c.references = some ref) :
    { id := generateRelationshipId t.id c.name ref.table, source := t.id
      target := ref.table, sourceColumn := c.name
      targetColumn := ref.column } ∈ data.relationships := by
  rw [parseDrizzleAST_success r ast data hres]
  refine List.mem_append_right _ ?_
  unfold inlineRels
  rw [List.mem_flatMap]
  refine ⟨t, ht, ?_⟩
  unfold inlineRelsTable
  rw [List.mem_filterMap]
  exact ⟨c, hc, by rw [href]; rfl⟩

/-- C1 witness: the amended theorem instantiated on the concrete schema. -/
theorem inline_reference_yields_relationship_instance :
    relPostsUsers ∈ dataInlinePlusRelations.relationships :=
  inline_reference_yields_relationship zeroJitter astInlinePlusRelations
    dataInlinePlusRelations tablePosts colUserId { table := "users", column := "id" }
    (by decide) (by decide) (by decide) (by decide)

/-- C2 (corrected), counterexample: a one-helper with two-element `fields`
and `references` arrays yields a single Relationship (built from the first
elements), not one per paired index. -/
theorem one_helper_multi_fields_single_relationship :
    parseRelationsFromAST relDeclTwoFields =
      [{ id := "rel-a-x-b", source := "a", target := "b"
         sourceColumn := "x", targetColumn := "u" }] := by decide

/-- C2 (amended): a qualifying one-helper property always yields exactly one
Relationship, whose columns come from the first element of `fields` and the
first element of `references`, regardless of the arrays' lengths. -/
theorem one_helper_uses_first_elements
    (sourceTableName targetTableName sourceColumn targetColumn : String)
    (pkey : ESNode) (restArgs : List ESNode) (cprops : List ESNode)
    (fk rk so ro : ESNode) (feRest reRest : List ESNode)
    (hf : cprops.find? (isKeyProp "fields") =
      some (.property fk (.arrayExpression
        (.memberExpression so (.identifier sourceColumn) :: feRest))))
    (hr : cprops.find? (isKeyProp "references") =
      some (.property rk (.arrayExpression
        (.memberExpression ro (.identifier targetColumn) :: reRest)))) :
    relsForProperty sourceTableName
      (.property pkey (.callExpression (.identifier "one")
        (.identifier targetTableName :: .objectExpression cprops :: restArgs))) =
      [{ id := generateRelationshipId sourceTableName sourceColumn targetTableName
         source := sourceTableName, target := targetTableName
         sourceColumn, targetColumn }] := by
  simp only [relsForProperty, hf, hr, List.head?_cons, List.length_cons]
  rw [if_pos ⟨trivial, by omega⟩, if_pos ⟨by omega, by omega⟩]

/-- C2 witness: the amended theorem instantiated on the two-element arrays of
the counterexample's inner property. -/
theorem one_helper_uses_first_elements_instance :
    relsForProperty "a"
      (.property (.identifier "b") (.callExpression (.identifier "one")
        [.identifier "b",
         .objectExpression
           [.property (.identifier "fields")
             (.arrayExpression
               [.memberExpression (.identifier "a") (.identifier "x"),
                .memberExpression (.identifier "a") (.identifier "y")]),
            .property (.identifier "references")
             (.arrayExpression
               [.memberExpression (.identifier "b") (.identifier "u"),
                .memberExpression (.identifier "b") (.identifier "v")])]])) =
      [{ id := generateRelationshipId "a" "x" "b", source := "a", target := "b"
         sourceColumn := "x", targetColumn := "u" }] :=
  one_helper_uses_first_elements "a" "b" "x" "u" (.identifier "b") []
    [.property (.identifier "fields")
       (.arrayExpression
         [.memberExpression (.identifier "a") (.identifier "x"),
          .memberExpression (.identifier "a") (.identifier "y")]),
     .property (.identifier "references")
       (.arrayExpression
         [.memberExpression (.identifier "b") (.identifier "u"),
          .memberExpression (.identifier "b") (.identifier "v")])]
    (.identifier "fields") (.identifier "references")
    (.identifier "a") (.identifier "b")
    [.memberExpression (.identifier "a") (.identifier "y")]
    [.memberExpression (.identifier "b") (.identifier "v")]
    rfl rfl

/-- C3 (corrected), counterexample: the block-dialect fallback parser never
returns the failure variant — in particular not on inputs from which it
extracts zero tables and zero enums — refuting the claimed asymmetry. -/
theorem prisma_fallback_never_fails :
    (∀ (rand : Nat → Int) (s : String), (parsePrismaSchemaFallback rand s).isSuccess = true) ∧
    parsePrismaSchemaFallback zeroJitter "just some plain text" =
      .success { tables := [], relationships := [], enums := [] } :=
  ⟨fun _ _ => rfl, by decide⟩

/-- C3 (amended): both fallback parsers treat every completed scan — including
one that extracts zero tables and zero enums — as success; the empty-result
failure policy does not differ between them. -/
theorem fallback_empty_policy_uniform :
    ∀ (rand : Nat → Int) (s : String),
      (parseDrizzleSchemaFallback rand s).isSuccess = true ∧
      (parsePrismaSchemaFallback rand s).isSuccess = true :=
  fun _ _ => ⟨rfl, rfl⟩

/-- C8 (confirmed): the fluent-dialect fallback parser returns the success
variant on every input, including when zero tables and zero enums are
extracted. -/
theorem drizzle_fallback_always_success :
    ∀ (rand : Nat → Int) (s : String),
      (parseDrizzleSchemaFallback rand s).isSuccess = true :=
  fun _ _ => rfl

/-- C10 (confirmed): when the cleaned input contains none of `pgTable`,
`mysqlTable`, `sqliteTable`, the fluent-dialect entry point fails at one of
the three input gates (keyword gate for nonempty cleaned input) without
reaching the structural passes, the fallback, or the zero-entities check. -/
theorem keyword_gate_rejects_without_table_builders
    (oracle : String → Option ESNode) (rand : Nat → Int) (s : String)
    (h1 : containsSub (cleanCode s).data "pgTable".data = false)
    (h2 : containsSub (cleanCode s).data "mysqlTable".data = false)
    (h3 : containsSub (cleanCode s).data "sqliteTable".data = false) :
    parseDrizzleSchema oracle rand s =
      .failure (if s = "" then errInvalid
                else if cleanCode s = "" then errEmptyClean else errNoTables) := by
  simp only [parseDrizzleSchema]
  by_cases h0 : s = ""
  · rw [if_pos h0, if_pos h0]
  · rw [if_neg h0, if_neg h0]
    by_cases hc : cleanCode s = ""
    · rw [if_pos hc, if_pos hc]
    · rw [if_neg hc, if_neg hc]
      rw [if_pos (by simp [h1, h2, h3])]

/-- C10 witness: a fluent-dialect schema consisting solely of an
enum-constructor declaration is rejected by the keyword gate. -/
theorem keyword_gate_rejects_enum_only_schema :
    parseDrizzleSchema (fun _ => none) zeroJitter enumOnlySchema =
      .failure (if enumOnlySchema = "" then errInvalid
                else if cleanCode enumOnlySchema = "" then errEmptyClean
                else errNoTables) :=
  keyword_gate_rejects_without_table_builders (fun _ => none) zeroJitter enumOnlySchema
    (by decide) (by decide) (by decide)

/-- An `Int` field carrying `@id`, `@default(autoincrement())` and a `@db`
native-type attribute with a populated argument. -/
def fieldIntIdAutoDb : PrismaField :=
  { name := "id", type := "Int", isArray := false, isOptional := false
    attributes := [{ name := "id", args := [] },
                   { name := "default", args := ["autoincrement()"] },
                   { name := "db", args := ["SmallInt"] }] }

/-- C4 (corrected), counterexample: on an `Int` field with `@id`,
`@default(autoincrement())` and a `@db` native type, the emitted type is
`serial`, not the native type — the serial rule runs after and overrides the
`@db` override. -/
theorem serial_rule_overrides_db_attr :
    (convertFieldToColumn fieldIntIdAutoDb []).map ParsedColumn.type = some "serial" ∧
    (convertFieldToColumn fieldIntIdAutoDb []).map ParsedColumn.type ≠ some "smallint" := by
  decide

/-- C4 (amended): with a `@db` attribute whose first argument parses as a
native type, the emitted type is the rendered native type unless the serial
rule (auto-increment default + id attribute on an `Int` field) applies, in
which case `serial` wins — rule (2) takes precedence over rule (1). -/
theorem db_attr_type_resolution_order (f : PrismaField) (enums : List ParsedEnum)
    (a : PrismaFieldAttribute) (nat tn : String) (targs : Option String)
    (hdb : f.attributes.find? (fun x => x.name == "db") = some a)
    (hhead : a.args.head? = some nat)
    (hmatch : matchNativeType nat = some (tn, targs)) :
    (convertFieldToColumn f enums).map ParsedColumn.type = some (
      if (f.attributes.find? (fun x => x.name == "id")).isSome ∧ f.type = "Int" ∧
         ((f.attributes.find? (fun x => x.name == "default")).elim false fun d =>
           d.args.any fun arg => containsSub arg.data "autoincrement".data) = true
      then "serial"
      else jsToLower tn ++
        (match targs with | some ta => "(" ++ ta ++ ")" | none => "")) := by
  simp only [convertFieldToColumn, hdb, hhead, hmatch]
  cases targs <;> rfl

/-- C4 witness: the amended theorem at the counterexample field, where the
serial branch fires. -/
theorem db_attr_type_resolution_order_instance :
    (convertFieldToColumn fieldIntIdAutoDb []).map ParsedColumn.type = some (
      if (fieldIntIdAutoDb.attributes.find? (fun x => x.name == "id")).isSome ∧
         fieldIntIdAutoDb.type = "Int" ∧
         ((fieldIntIdAutoDb.attributes.find? (fun x => x.name == "default")).elim false fun d =>
           d.args.any fun arg => containsSub arg.data "autoincrement".data) = true
      then "serial"
      else jsToLower "SmallInt" ++
        (match (none : Option String) with | some ta => "(" ++ ta ++ ")" | none => "")) :=
  db_attr_type_resolution_order fieldIntIdAutoDb []
    { name := "db", args := ["SmallInt"] } "SmallInt" "SmallInt" none
    (by decide) (by decide) (by decide)

theorem lookup_mem_values : ∀ (l : List (String × String)) (k v : String),
    l.lookup k = some v → v ∈ l.map Prod.snd := by
  intro l
  induction l with
  | nil => intro k v h; simp [List.lookup] at h
  | cons p ps ih =>
    intro k v h
    obtain ⟨a, b⟩ := p
    simp only [List.lookup] at h
    cases hab : (k == a) with
    | true =>
      rw [hab] at h
      rw [Option.some.injEq] at h
      subst h
      simp
    | false =>
      rw [hab] at h
      simp only [List.map_cons]
      exact List.mem_cons_of_mem _ (ih k v h)

theorem typeMapping_values_nonempty : ∀ v ∈ typeMapping.map Prod.snd, v ≠ "" := by
  decide

theorem append_ne_empty_left (a b : String) (h : a ≠ "") : a ++ b ≠ "" := by
  intro hab
  apply h
  have hd := congrArg String.data hab
  rw [String.data_append] at hd
  have hd' : a.data ++ b.data = [] := hd
  have ha : a.data = [] := (List.append_eq_nil.mp hd').1
  cases a with
  | mk d => cases ha; rfl

/-- C6 (corrected), counterexample: a table column whose value is a bare
identifier is still emitted — with an empty type string — rather than
dropped. -/
theorem column_emitted_with_empty_type :
    (match parseDrizzleAST zeroJitter astBareColumn with
     | .success d => d.tables.any fun t => t.columns.any fun c => c.type == ""
     | .failure _ => false) = true := by decide

/-- C6 (amended): a column whose chain base is a call to a nonempty-named
identifier always gets a non-empty type string; only when no such base
resolves is the column emitted with an empty type (it is never dropped for
type reasons). -/
theorem named_call_column_type_nonempty (cn : String) (v : ESNode)
    (nm : String) (args : List ESNode) (col : ParsedColumn)
    (hbase : (chainWalk v).2 = .callExpression (.identifier nm) args)
    (hnm : nm ≠ "")
    (hcol : parseColumnFromAST (.property (.identifier cn) v) = some col) :
    col.type ≠ "" := by
  have hd : (typeMapping.lookup nm).getD nm ≠ "" := by
    cases hl : typeMapping.lookup nm with
    | none => simpa using hnm
    | some w =>
      have hw : w ≠ "" :=
        typeMapping_values_nonempty w (lookup_mem_values typeMapping nm w hl)
      simpa using hw
  simp only [parseColumnFromAST, hbase] at hcol
  rw [Option.some.injEq] at hcol
  rw [← hcol]
  exact append_ne_empty_left _ _ hd

def textColumnValue : ESNode := .callExpression (.identifier "text") []

def textColumn : ParsedColumn :=
  { name := "a", type := "text", isPrimaryKey := false, isUnique := false
    isNotNull := false, references := none, defaultValue := none }

/-- C6 witness: the amended theorem at a concrete `a: text()` column. -/
theorem named_call_column_type_nonempty_instance : textColumn.type ≠ "" :=
  named_call_column_type_nonempty "a" textColumnValue "text" [] textColumn
    rfl (by decide) (by decide)

/-- C7 (confirmed): for a non-array field typed by another model, with no
`@relation` attribute: if a sibling field matches the inferred foreign-key
names and the target model has an `@id` field, exactly one Relationship is
synthesized (sourceColumn = the matched foreign-key field, targetColumn = the
target's id field); if either is missing, none is. -/
theorem implicit_relation_inference (model : PrismaModel)
    (allModels : List PrismaModel) (field : PrismaField) (tm : PrismaModel)
    (htm : allModels.find? (fun m => m.name == field.type) = some tm)
    (hrel : field.attributes.find? (fun a => a.name == "relation") = none)
    (harr : field.isArray = false) :
    (∀ fk pk, model.fields.find? (fkNameMatch field) = some fk →
        tm.fields.find? hasIdAttribute = some pk →
        relsForFieldPrisma model allModels field =
          [{ id := generateRelationshipId model.name fk.name field.type
             source := model.name, target := field.type
             sourceColumn := fk.name, targetColumn := pk.name }]) ∧
    ((model.fields.find? (fkNameMatch field) = none ∨
      tm.fields.find? hasIdAttribute = none) →
        relsForFieldPrisma model allModels field = []) := by
  constructor
  · intro fk pk hfk hpk
    simp [relsForFieldPrisma, htm, hrel, harr, hfk, hpk]
  · intro hmiss
    rcases hmiss with hfk | hpk
    · simp [relsForFieldPrisma, htm, hrel, harr, hfk]
    · cases hfk2 : model.fields.find? (fkNameMatch field) with
      | none => simp [relsForFieldPrisma, htm, hrel, harr, hfk2]
      | some fk => simp [relsForFieldPrisma, htm, hrel, harr, hfk2, hpk]

def fieldUserId : PrismaField :=
  { name := "id", type := "Int", isArray := false, isOptional := false
    attributes := [{ name := "id", args := [] }] }

def modelUser : PrismaModel :=
  { name := "User", fields := [fieldUserId], indexes := [], attributes := [] }

def fieldAuthor : PrismaField :=
  { name := "author", type := "User", isArray := false, isOptional := false
    attributes := [] }

def fieldAuthorId : PrismaField :=
  { name := "authorId", type := "Int", isArray := false, isOptional := false
    attributes := [] }

def modelPost : PrismaModel :=
  { name := "Post", fields := [fieldAuthor, fieldAuthorId], indexes := []
    attributes := [] }

/-- C7 witness: implicit inference on `Post.author : User` with sibling
`authorId` and target id field `User.id`. -/
theorem implicit_relation_inference_instance :
    relsForFieldPrisma modelPost [modelUser, modelPost] fieldAuthor =
      [{ id := generateRelationshipId "Post" "authorId" "User"
         source := "Post", target := "User"
         sourceColumn := "authorId", targetColumn := "id" }] :=
  (implicit_relation_inference modelPost [modelUser, modelPost] fieldAuthor modelUser
    (by decide) (by decide) (by decide)).1 fieldAuthorId fieldUserId
    (by decide) (by decide)

theorem prismaTablesAux_ids (r : Nat → Int) (e : List ParsedEnum) :
    ∀ (ms : List PrismaModel) (k : Nat),
    (prismaTablesAux r e ms k).map ParsedTable.id = ms.map PrismaModel.name := by
  intro ms
  induction ms with
  | nil => intro k; rfl
  | cons m ms ih =>
    intro k
    rw [prismaTablesAux_cons]
    simp [ih (k + 1)]

theorem parsePrismaSchema_success (r : Nat → Int) (s : String) (data : ParsedSchema)
    (h : parsePrismaSchema r s = .success data) :
    data.tables = prismaTablesAux r (parseEnums (cleanCode s)) (parseModels (cleanCode s)) 0 ∧
    data.relationships = (parseModels (cleanCode s)).flatMap
      (fun m => extractRelationships m (parseModels (cleanCode s))) := by
  simp only [parsePrismaSchema] at h
  by_cases h0 : s = ""
  · rw [if_pos h0] at h; exact ParseResult.noConfusion h
  · rw [if_neg h0] at h
    by_cases h1 : cleanCode s = ""
    · rw [if_pos h1] at h; exact ParseResult.noConfusion h
    · rw [if_neg h1] at h
      by_cases h2 : ¬ (containsSub (cleanCode s).data "model ".data ∨
          containsSub (cleanCode s).data "enum ".data)
      · rw [if_pos h2] at h; exact ParseResult.noConfusion h
      · rw [if_neg h2] at h
        by_cases h3 : (prismaTablesAux r (parseEnums (cleanCode s)) (parseModels (cleanCode s)) 0).length = 0 ∧
            (parseEnums (cleanCode s)).length = 0
        · rw [if_pos h3] at h; exact ParseResult.noConfusion h
        · rw [if_neg h3] at h
          injection h with h'
          rw [← h']
          exact ⟨rfl, rfl⟩

/-- Every relationship produced for a field names the enclosing model as
source and the field's (resolved) target model as target. -/
theorem relsForFieldPrisma_shape (m : PrismaModel) (models : List PrismaModel)
    (f : PrismaField) (rel : ParsedRelationship)
    (h : rel ∈ relsForFieldPrisma m models f) :
    rel.source = m.name ∧ rel.target = f.type ∧ ∃ tm ∈ models, tm.name = f.type := by
  cases htm : models.find? (fun mm => mm.name == f.type) with
  | none =>
    simp only [relsForFieldPrisma, htm] at h
    simp at h
  | some tm =>
    have hmem : tm ∈ models := List.mem_of_find?_eq_some htm
    have hname : tm.name = f.type := by
      have := List.find?_some htm
      simpa using this
    simp only [relsForFieldPrisma, htm] at h
    have hgoal : rel.source = m.name ∧ rel.target = f.type := by
      split at h
      · split at h
        · split at h
          · rw [List.mem_map] at h
            obtain ⟨i, _, hrel⟩ := h
            rw [← hrel]
            exact ⟨rfl, rfl⟩
          · simp at h
        · split at h
          · simp at h
          · split at h
            · split at h
              · rw [List.mem_singleton] at h
                rw [h]
                exact ⟨rfl, rfl⟩
              · simp at h
            · simp at h
      · split at h
        · simp at h
        · split at h
          · split at h
            · rw [List.mem_singleton] at h
              rw [h]
              exact ⟨rfl, rfl⟩
            · simp at h
          · simp at h
    exact ⟨hgoal.1, hgoal.2, tm, hmem, hname⟩

/-- C5 (corrected), counterexample: the fluent-dialect structural parser
emits a Relationship whose target (`users`) names no table in the successful
result, so the endpoint-resolution invariant fails for that dialect. -/
theorem drizzle_dangling_relationship_target :
    (match parseDrizzleAST zeroJitter astDanglingReference with
     | .success d => d.relationships.any fun rel => !(d.tables.any fun t => t.id == rel.target)
     | .failure _ => false) = true := by decide

/-- C5 (amended): in the block dialect the invariant holds — every
Relationship of a successful ParseResult has source and target equal to the
id of some Table of the same Schema.  (The fluent dialect gives no such
guarantee: see the counterexample, where an inline-reference target names no
parsed table.) -/
theorem prisma_relationship_endpoints_resolved (r : Nat → Int) (s : String)
    (data : ParsedSchema) (hres : parsePrismaSchema r s = .success data) :
    ∀ rel ∈ data.relationships,
      (∃ t ∈ data.tables, t.id = rel.source) ∧
      (∃ t ∈ data.tables, t.id = rel.target) := by
  obtain ⟨htab, hrels⟩ := parsePrismaSchema_success r s data hres
  intro rel hmem
  rw [hrels, List.mem_flatMap] at hmem
  obtain ⟨m, hm, hmem2⟩ := hmem
  simp only [extractRelationships] at hmem2
  rw [List.mem_flatMap] at hmem2
  obtain ⟨f, _, hmem3⟩ := hmem2
  obtain ⟨hsrc, htgt, tm, htmm, htmn⟩ :=
    relsForFieldPrisma_shape m (parseModels (cleanCode s)) f rel hmem3
  have hids : data.tables.map ParsedTable.id =
      (parseModels (cleanCode s)).map PrismaModel.name := by
    rw [htab]
    exact prismaTablesAux_ids r (parseEnums (cleanCode s)) (parseModels (cleanCode s)) 0
  constructor
  · have hin : rel.source ∈ data.tables.map ParsedTable.id := by
      rw [hids, hsrc]
      exact List.mem_map_of_mem PrismaModel.name hm
    rw [List.mem_map] at hin
    obtain ⟨t, ht, hid⟩ := hin
    exact ⟨t, ht, hid⟩
  · have hin : rel.target ∈ data.tables.map ParsedTable.id := by
      rw [hids, htgt, ← htmn]
      exact List.mem_map_of_mem PrismaModel.name htmm
    rw [List.mem_map] at hin
    obtain ⟨t, ht, hid⟩ := hin
    exact ⟨t, ht, hid⟩

/-- A small block-dialect schema with one implicit relation. -/
def prismaExample : String :=
  "model User \x7b\n  id Int @id\n\x7d\nmodel Post \x7b\n  id Int @id\n  author User\n  authorId Int\n\x7d"

def prismaExampleData : ParsedSchema :=
  { tables :=
      [{ id := "User", name := "User"
         columns := [{ name := "id", type := "integer", isPrimaryKey := true
                       isUnique := false, isNotNull := true
                       references := none, defaultValue := none }]
         indexes := [], position := { x := 50, y := 50 } },
       { id := "Post", name := "Post"
         columns := [{ name := "id", type := "integer", isPrimaryKey := true
                       isUnique := false, isNotNull := true
                       references := none, defaultValue := none },
                     { name := "authorId", type := "integer", isPrimaryKey := false
                       isUnique := false, isNotNull := true
                       references := none, defaultValue := none }]
         indexes := [], position := { x := 300, y := 50 } }]
    relationships :=
      [{ id := "rel-Post-authorId-User", source := "Post", target := "User"
         sourceColumn := "authorId", targetColumn := "id" }]
    enums := [] }

/-- C5 witness: the amended theorem at the concrete block-dialect schema and
its only relationship. -/
theorem prisma_relationship_endpoints_resolved_instance :
    (∃ t ∈ prismaExampleData.tables, t.id = "Post") ∧
    (∃ t ∈ prismaExampleData.tables, t.id = "User") :=
  prisma_relationship_endpoints_resolved zeroJitter prismaExample prismaExampleData
    (by decide)
    { id := "rel-Post-authorId-User", source := "Post", target := "User"
      sourceColumn := "authorId", targetColumn := "id" }
    (by decide)

/-- C9 (confirmed): for both dialects, two runs of the parser on the same
input differ at most in table positions — erasing positions makes the results
(success tag, error message, tables, columns, relationships, indexes, enums)
equal.  The position jitter stream is the only run-to-run varying input. -/
theorem parse_deterministic_modulo_positions :
    ∀ (oracle : String → Option ESNode) (s : String) (r1 r2 : Nat → Int),
      eraseResult (parseDrizzleSchema oracle r1 s) =
        eraseResult (parseDrizzleSchema oracle r2 s) ∧
      eraseResult (parsePrismaSchema r1 s) = eraseResult (parsePrismaSchema r2 s) :=
  fun oracle s r1 r2 =>
    ⟨parseDrizzleSchema_erase oracle r1 r2 s, parsePrismaSchema_erase r1 r2 s⟩

end DrizzleViz
